import Mathlib

/-!
# Graphics engine of `MyLibraries/Graphics/graphics.c` and software timers of `MyLibraries/Timers/timers.c`

A shallow embedding of the drawing functions of `graphics.c` (namespace
`Graphics`) and of the software timer table of `timers.c` (namespace `Timers`).  Every drawing
function of the C file only talks to the display through the function pointers
of `lcdDriver`; a function is therefore embedded as the list of driver calls it
issues, in program order.

Conventions of the embedding:

* C `int` is embedded as `Int` and `unsigned int` colours as `Nat`.  Signed
  overflow is undefined behaviour in C, so the development describes the
  executions in which no `int` expression leaves the range of `int`.  No
  colour expression of the file can exceed 32 bits.
* `for (int i = 0; i < n; i++)` runs its body for `i = 0, ..., n - 1`, and not
  at all when `n <= 0`; it is embedded by `forLoop`.
* `while` loops whose trip count is not syntactically bounded take a fuel
  argument and return `none` when the fuel runs out.
* A `const uint8_t *` buffer is embedded as the function from the index used
  in `data[i]` to the byte stored there.
-/

namespace Graphics

/-! ## The driver interface -/

/-- One call through a function pointer of `lcdDriver`, with its arguments.  The
set-up call of the driver is made by `GRAPH_Initialize` only, which is not
embedded here. -/
inductive DriverCall where
  | setWindow (x y width height : Int)
  | setGramAddress (x y : Int)
  | drawNextPixel (color : Nat)
  | drawPixel (x y : Int) (color : Nat)
  deriving DecidableEq

/-- The body sequence of `for (int i = 0; i < n; i++) body(i)`. -/
def forLoop (n : Int) (body : Int → List DriverCall) : List DriverCall :=
  (List.range n.toNat).flatMap (fun i => body (i : Int))

/-! ## Colour model -/

/-- `GRAPH_ConvertRgbTo565` (graphics.c, lines 71-76). -/
def GRAPH_ConvertRgbTo565 (rgbColor : Nat) : Nat :=
  let red := (rgbColor >>> 19) &&& 0x1f
  let green := (rgbColor >>> 10) &&& 0x3f
  let blue := (rgbColor >>> 3) &&& 0x1f
  (red <<< 11) ||| (green <<< 5) ||| blue

/-! ## Filled rectangle -/

/-- `GRAPH_DrawRectangle` (graphics.c, lines 98-107). -/
def GRAPH_DrawRectangle (x y width height : Int) (color : Nat) : List DriverCall :=
  let color := GRAPH_ConvertRgbTo565 color
  [DriverCall.setWindow x y width height, DriverCall.setGramAddress x y] ++
    forLoop (width * height) (fun _ => [DriverCall.drawNextPixel color])

/-! ## Fonts -/

/-- Modelled from the spec: the font resource `GRAPH_FontTypedef` is declared in
`graphics.h`, which is not part of the sources at hand.  The fields are the ones
`graphics.c` reads: the bitmap `data` (`none` is the null pointer), the glyph
width in columns, the bytes per column, the first character code and the count
of characters.  The four numbers are unsigned and narrower than `int`, so C
promotes them to `int` in every expression of `GRAPH_DrawChar`. -/
structure GRAPH_FontTypedef where
  data : Option (Int → Nat)
  columnCount : Nat
  bytesPerColumn : Nat
  firstCharacter : Nat
  numberOfCharacters : Nat

/-- `GRAPH_DrawChar` (graphics.c, lines 143-185); `currentFont` is the file's
static variable of that name.  `bitmask` is set to `0x01` before the bit loop and
shifted left once per iteration, so it is `0x01 << k` in iteration `k`. -/
def GRAPH_DrawChar (currentFont : GRAPH_FontTypedef) (character x y : Int)
    (foregroundColor backgroundColor : Nat) : List DriverCall :=
  let BITS_PER_BYTE : Int := 8
  match currentFont.data with
  | none => []
  | some data =>
    let foregroundColor := GRAPH_ConvertRgbTo565 foregroundColor
    let backgroundColor := GRAPH_ConvertRgbTo565 backgroundColor
    let rowInCharacterTable : Int := character - currentFont.firstCharacter
    if rowInCharacterTable ≥ currentFont.numberOfCharacters then []
    else
      let currentPosition : Int :=
        currentFont.columnCount * currentFont.bytesPerColumn * rowInCharacterTable
      [DriverCall.setWindow x y currentFont.columnCount
          (currentFont.bytesPerColumn * BITS_PER_BYTE),
        DriverCall.setGramAddress x y] ++
      forLoop currentFont.columnCount (fun i =>
        forLoop currentFont.bytesPerColumn (fun j =>
          forLoop BITS_PER_BYTE (fun k =>
            let bitmask : Nat := 0x01 <<< k.toNat
            if data (currentPosition + i * currentFont.bytesPerColumn + j) &&& bitmask ≠ 0 then
              [DriverCall.drawNextPixel foregroundColor]
            else
              [DriverCall.drawNextPixel backgroundColor])))

/-! ## Bar chart -/

/-- The arguments of one call of `GRAPH_DrawRectangle`. -/
structure RectangleCall where
  x : Int
  y : Int
  width : Int
  height : Int
  color : Nat
  deriving DecidableEq

/-- The loop of `GRAPH_DrawBarChart` (graphics.c, lines 286-289) with `n`
iterations left, loop counter `i` and bar origin `currentPosition`. -/
def GRAPH_DrawBarChart_loop (data : Int → Nat) (widthOfSingleBar : Int) (color : Nat) :
    Nat → Int → Int → List RectangleCall
  | 0, _, _ => []
  | n + 1, i, currentPosition =>
    let SPACE : Int := 5
    { x := currentPosition, y := 0, width := widthOfSingleBar, height := data i,
      color := color } ::
      GRAPH_DrawBarChart_loop data widthOfSingleBar color n (i + 1)
        (currentPosition + (widthOfSingleBar + SPACE))

/-- The calls of `GRAPH_DrawRectangle` made by `GRAPH_DrawBarChart`
(graphics.c, lines 279-290), in order. -/
def GRAPH_DrawBarChart_fills (data : Int → Nat) (lengthOfData x _y widthOfSingleBar : Int)
    (color : Nat) : List RectangleCall :=
  let currentPosition := x
  GRAPH_DrawBarChart_loop data widthOfSingleBar color lengthOfData.toNat 0 currentPosition

/-- `GRAPH_DrawBarChart` (graphics.c, lines 279-290) as driver calls. -/
def GRAPH_DrawBarChart (data : Int → Nat) (lengthOfData x y widthOfSingleBar : Int)
    (color : Nat) : List DriverCall :=
  (GRAPH_DrawBarChart_fills data lengthOfData x y widthOfSingleBar color).flatMap
    (fun r => GRAPH_DrawRectangle r.x r.y r.width r.height r.color)

/-- The buffer whose first bytes are the elements of `l`. -/
def bufferOfList (l : List Nat) : Int → Nat :=
  fun i => if 0 ≤ i then l.getD i.toNat 0 else 0

/-! ## Circles -/

/-- The `while` loop of `GRAPH_DrawCircle` (graphics.c, lines 303-321). -/
def GRAPH_DrawCircle_loop (x y : Int) (color : Nat) :
    Nat → Int → Int → Int → Option (List DriverCall)
  | 0, _, _, _ => none
  | fuel + 1, newX, newY, error =>
    if newX ≥ newY then
      let calls :=
        [DriverCall.drawPixel (newX + x) (newY + y) color,
         DriverCall.drawPixel (newY + x) (newX + y) color,
         DriverCall.drawPixel (-newX + x) (newY + y) color,
         DriverCall.drawPixel (-newY + x) (newX + y) color,
         DriverCall.drawPixel (-newX + x) (-newY + y) color,
         DriverCall.drawPixel (-newY + x) (-newX + y) color,
         DriverCall.drawPixel (newX + x) (-newY + y) color,
         DriverCall.drawPixel (newY + x) (-newX + y) color]
      let newY := newY + 1
      if error < 0 then
        let error := error + (2 * newY + 1)
        (GRAPH_DrawCircle_loop x y color fuel newX newY error).map (calls ++ ·)
      else
        let newX := newX - 1
        let error := error + 2 * (newY - newX + 1)
        (GRAPH_DrawCircle_loop x y color fuel newX newY error).map (calls ++ ·)
    else some []

/-- `GRAPH_DrawCircle` (graphics.c, lines 297-322). -/
def GRAPH_DrawCircle (fuel : Nat) (x y radius : Int) (color : Nat) :
    Option (List DriverCall) :=
  let newX := radius
  let newY := 0
  let error := 1 - newX
  GRAPH_DrawCircle_loop x y color fuel newX newY error

/-- `GRAPH_DrawFilledCircle` (graphics.c, lines 330-334): `while (radius--)`
tests `radius`, then decrements it, then runs the body. -/
def GRAPH_DrawFilledCircle : Nat → Int → Int → Int → Nat → Option (List DriverCall)
  | 0, _, _, _, _ => none
  | fuel + 1, x, y, radius, color =>
    if radius ≠ 0 then
      let radius := radius - 1
      match GRAPH_DrawCircle (fuel + 1) x y radius color with
      | none => none
      | some ring =>
        (GRAPH_DrawFilledCircle fuel x y radius color).map (ring ++ ·)
    else some []

/-! ## Lines -/

/-- The `while (1)` loop of `GRAPH_DrawLine` (graphics.c, lines 353-373). -/
def GRAPH_DrawLine_loop (dx dy sx sy x2 y2 : Int) (foregroundColor : Nat) :
    Nat → Int → Int → Int → Option (List DriverCall)
  | 0, _, _, _ => none
  | fuel + 1, x1, y1, err =>
    if x1 = x2 ∧ y1 = y2 then some [DriverCall.drawPixel x1 y1 foregroundColor]
    else
      let tmpErr := err
      let err' := if tmpErr > -dx then err - dy else err
      let x1' := if tmpErr > -dx then x1 + sx else x1
      let err'' := if tmpErr < dy then err' + dx else err'
      let y1' := if tmpErr < dy then y1 + sy else y1
      (GRAPH_DrawLine_loop dx dy sx sy x2 y2 foregroundColor fuel x1' y1' err'').map
        (DriverCall.drawPixel x1 y1 foregroundColor :: ·)

/-- `GRAPH_DrawLine` (graphics.c, lines 343-374); `/` of C truncates towards
zero, which is `Int.tdiv`. -/
def GRAPH_DrawLine (fuel : Nat) (x1 y1 x2 y2 : Int) (foregroundColor : Nat) :
    Option (List DriverCall) :=
  let dx := if x2 > x1 then x2 - x1 else x1 - x2
  let sx : Int := if x1 < x2 then 1 else -1
  let dy := if y2 > y1 then y2 - y1 else y1 - y2
  let sy : Int := if y1 < y2 then 1 else -1
  let err := Int.tdiv (if dx > dy then dx else -dy) 2
  GRAPH_DrawLine_loop dx dy sx sy x2 y2 foregroundColor fuel x1 y1 err

/-! ## A recording driver -/

/-- Modelled from the spec: the display driver is an external collaborator of
the engine.  This one records every pixel write and follows the cursor rule of
the spec: `setWindow` sets the addressing window, `setGramAddress` places the
cursor, `drawNextPixel` writes at the cursor and moves it one pixel to the
right, wrapping to the left edge of the next row at the right edge of the
window; `drawPixel` writes at the given address. -/
structure RecordingDriver where
  winX : Int
  winY : Int
  winW : Int
  winH : Int
  curX : Int
  curY : Int
  writes : List ((Int × Int) × Nat)

/-- The effect of one driver call on the recording driver. -/
def RecordingDriver.step (d : RecordingDriver) : DriverCall → RecordingDriver
  | DriverCall.setWindow x y w h => { d with winX := x, winY := y, winW := w, winH := h }
  | DriverCall.setGramAddress x y => { d with curX := x, curY := y }
  | DriverCall.drawNextPixel c =>
    if d.curX + 1 < d.winX + d.winW then
      { d with curX := d.curX + 1, writes := d.writes ++ [((d.curX, d.curY), c)] }
    else
      { d with curX := d.winX, curY := d.curY + 1,
               writes := d.writes ++ [((d.curX, d.curY), c)] }
  | DriverCall.drawPixel x y c => { d with writes := d.writes ++ [((x, y), c)] }

/-- The recording driver after a sequence of driver calls. -/
def RecordingDriver.run (d : RecordingDriver) (calls : List DriverCall) : RecordingDriver :=
  calls.foldl RecordingDriver.step d

/-- The recorded writes that landed on pixel `p`, in order. -/
def writesAt (ws : List ((Int × Int) × Nat)) (p : Int × Int) : List ((Int × Int) × Nat) :=
  ws.filter (fun e => decide (e.1 = p))

/-- The pixels of `H` full rows of width `W`, row by row. -/
def rowsWritten (x y : Int) (W H : Nat) (c : Nat) : List ((Int × Int) × Nat) :=
  (List.range H).flatMap (fun (j : Nat) =>
    (List.range W).map (fun (i : Nat) => ((x + (i : Int), y + (j : Int)), c)))

/-- The `drawPixel` calls that write the pixels `pts`, in order, in one colour. -/
def pixelCalls (color : Nat) (pts : List (Int × Int)) : List DriverCall :=
  pts.map (fun p => DriverCall.drawPixel p.1 p.2 color)

/-- Two pixels that differ by at most one in each coordinate. -/
def Adjacent (p q : Int × Int) : Prop :=
  |q.1 - p.1| ≤ 1 ∧ |q.2 - p.2| ≤ 1

/-- The state of the line loop at a pixel, seen from the end point `(x2, y2)`:
the pixel is `r` steps of `sx` and `q` steps of `sy` short of the end point and
the error term `e0 + r * dy - q * dx` of the loop lies in `[lo, hi)`. -/
def LineInvariant (dx dy sx sy x2 y2 e0 lo hi : Int) (R Q : Int) (p : Int × Int) : Prop :=
  ∃ r q : Int, 0 ≤ r ∧ r ≤ R ∧ 0 ≤ q ∧ q ≤ Q ∧ p = (x2 - sx * r, y2 - sy * q) ∧
    lo ≤ e0 + r * dy - q * dx ∧ e0 + r * dy - q * dx < hi

/-- A font shaped like the 8x16 font of the library: 95 glyphs from the space
character on, 8 columns of 2 bytes each, every byte zero. -/
def blankFont8x16 : GRAPH_FontTypedef :=
  { data := some (fun _ => 0), columnCount := 8, bytesPerColumn := 2,
    firstCharacter := 32, numberOfCharacters := 95 }

/-- The pixel written for bit `n % 8` of byte `n / 8` of a glyph that starts at
byte `start` of the font data. -/
def glyphPixel (data : Int → Nat) (start : Int) (fg bg : Nat) (n : Nat) : DriverCall :=
  DriverCall.drawNextPixel
    (if (data (start + ((n / 8 : Nat) : Int))).testBit (n % 8) then fg else bg)

/-- A font of two glyphs, `'A'` and `'B'`, of one column of one byte each. -/
def tinyFont : GRAPH_FontTypedef :=
  { data := some (bufferOfList [0x00, 0x05]), columnCount := 1, bytesPerColumn := 1,
    firstCharacter := 65, numberOfCharacters := 2 }

/-! ## Strings -/

/-- The characters of a C string literal, without the terminating NUL. -/
def cString (s : String) : List Int :=
  s.toList.map (fun c => (c.toNat : Int))

/-- The loop of `GRAPH_DrawString` (graphics.c, lines 196-200) over the characters
that are left before the terminating NUL, with the current value of `x`. -/
def GRAPH_DrawString_loop (currentFont : GRAPH_FontTypedef) (y : Int)
    (foregroundColor backgroundColor : Nat) : List Int → Int → List DriverCall
  | [], _ => []
  | character :: rest, x =>
    GRAPH_DrawChar currentFont character x y foregroundColor backgroundColor ++
      GRAPH_DrawString_loop currentFont y foregroundColor backgroundColor rest
        (x + currentFont.columnCount)

/-- `GRAPH_DrawString` (graphics.c, lines 193-201); `stringToDisplay` holds the
characters before the terminating NUL, so `strlen` is its length. -/
def GRAPH_DrawString (currentFont : GRAPH_FontTypedef) (stringToDisplay : List Int)
    (x y : Int) (foregroundColor backgroundColor : Nat) : List DriverCall :=
  GRAPH_DrawString_loop currentFont y foregroundColor backgroundColor stringToDisplay x

/-- The value of `currentFont` before `GRAPH_SetFont` is called: a static
variable is zero-initialised, so the data pointer is null. -/
def unsetFont : GRAPH_FontTypedef :=
  { data := none, columnCount := 0, bytesPerColumn := 0, firstCharacter := 0,
    numberOfCharacters := 0 }

/-! ## Images -/

/-- Modelled from the spec: the image resource `GRAPH_ImageTypedef` is declared in
`graphics.h`, which is not part of the sources at hand.  The fields are the ones
`graphics.c` reads: the packed pixel bytes, the row count, the column count and
the bytes per pixel. -/
structure GRAPH_ImageTypedef where
  data : Int → Nat
  rows : Nat
  columns : Nat
  bytesPerPixel : Nat

/-- `RGB_TO_UNSIGNED_INT` (graphics.c, line 30).  Its arguments are bytes, so the
result fits 24 bits. -/
def RGB_TO_UNSIGNED_INT (red green blue : Nat) : Nat :=
  (red <<< 16) ||| (green <<< 8) ||| blue

/-- `GRAPH_DrawImage` (graphics.c, lines 122-136); `displayedImage` is the file's
static variable of that name. -/
def GRAPH_DrawImage (displayedImage : GRAPH_ImageTypedef) (x y : Int) : List DriverCall :=
  forLoop displayedImage.rows (fun i =>
    forLoop displayedImage.columns (fun j =>
      let currentPosition : Int :=
        (i * displayedImage.columns + j) * displayedImage.bytesPerPixel
      let red := displayedImage.data currentPosition
      let green := displayedImage.data (currentPosition + 1)
      let blue := displayedImage.data (currentPosition + 2)
      [DriverCall.drawPixel (j + x) (i + y)
        (GRAPH_ConvertRgbTo565 (RGB_TO_UNSIGNED_INT red green blue))]))

/-! ## Boxes -/

/-- `GRAPH_DrawBox` (graphics.c, lines 210-219): four calls of
`GRAPH_DrawRectangle`. -/
def GRAPH_DrawBox (x y width height lineWidth : Int) (color : Nat) : List DriverCall :=
  GRAPH_DrawRectangle x y lineWidth height color ++
  GRAPH_DrawRectangle (x + lineWidth) y (width - 2 * lineWidth) lineWidth color ++
  GRAPH_DrawRectangle (x + width - lineWidth) y lineWidth height color ++
  GRAPH_DrawRectangle (x + lineWidth) (y + height - lineWidth) (width - 2 * lineWidth)
    lineWidth color

/-- The border of the rectangle `[x, x+width) x [y, y+height)`: its pixels that
lie fewer than `lineWidth` pixels from one of its four edges. -/
@[reducible]
def OnBorder (x y width height lineWidth : Int) (p : Int × Int) : Prop :=
  (x ≤ p.1 ∧ p.1 < x + width ∧ y ≤ p.2 ∧ p.2 < y + height) ∧
    (p.1 - x < lineWidth ∨ x + width - 1 - p.1 < lineWidth ∨
      p.2 - y < lineWidth ∨ y + height - 1 - p.2 < lineWidth)

/-! ## Line graph -/

/-- Modelled from the spec: the driver record `GRAPH_LcdDriverTypedef` is declared
in `graphics.h`, which is not part of the sources at hand.  Its function
pointers are embedded as `DriverCall`s; what is left are the physical width and
height of the display in pixels. -/
structure GRAPH_LcdDriverTypedef where
  width : Int
  height : Int

/-- The six calls of `GRAPH_DrawLine` that draw the two arrowed axes in
`GRAPH_DrawGraph` (graphics.c, lines 248-254); `x` and `y` already include the
offsets. -/
def GRAPH_DrawGraph_axes (fuel : Nat) (x y : Int) (foregroundColor : Nat) :
    Option (List DriverCall) :=
  match GRAPH_DrawLine fuel (x - 2) (y - 2) (x - 2) 230 foregroundColor,
        GRAPH_DrawLine fuel (x - 2) 230 (x - 12) 220 foregroundColor,
        GRAPH_DrawLine fuel (x - 2) 230 (x + 8) 220 foregroundColor,
        GRAPH_DrawLine fuel (x - 2) (y - 2) 310 (y - 2) foregroundColor,
        GRAPH_DrawLine fuel 310 (y - 2) 300 (y - 12) foregroundColor,
        GRAPH_DrawLine fuel 310 (y - 2) 300 (y + 8) foregroundColor with
  | some l1, some l2, some l3, some l4, some l5, some l6 =>
    some (l1 ++ l2 ++ l3 ++ l4 ++ l5 ++ l6)
  | _, _, _, _, _, _ => none

/-- The clamp of `len` and the sample loop of `GRAPH_DrawGraph` (graphics.c,
lines 256-264); `x` and `y` already include the offsets. -/
def GRAPH_DrawGraph_plot (data : Int → Nat) (len maxDataLen x y : Int)
    (foregroundColor : Nat) : List DriverCall :=
  let len := if len > maxDataLen then maxDataLen else len
  forLoop len (fun i =>
    [DriverCall.drawPixel (x + i) (y + data i - 1) foregroundColor,
     DriverCall.drawPixel (x + i) (y + data i) foregroundColor,
     DriverCall.drawPixel (x + i) (y + data i + 1) foregroundColor])

/-- `GRAPH_DrawGraph` (graphics.c, lines 231-267).  `font8x16Info` is the font of
`font_8x16.h`, `currentFont` the file's static variable and `lcdDriver` the bound
driver.  The result is the list of driver calls and the value of `currentFont`
when the function returns. -/
def GRAPH_DrawGraph (fuel : Nat) (font8x16Info currentFont : GRAPH_FontTypedef)
    (_lcdDriver : GRAPH_LcdDriverTypedef) (data : Int → Nat) (len x y : Int)
    (foregroundColor backgroundColor : Nat) :
    Option (List DriverCall × GRAPH_FontTypedef) :=
  let xOffset : Int := 30
  let x := x + xOffset
  let yOffset : Int := 30
  let y := y + yOffset
  let maxDataLen : Int := 320 - xOffset - 20
  let tmp := currentFont
  let currentFont := font8x16Info
  let label :=
    GRAPH_DrawString currentFont (cString "Voltage [V]") 5 50 foregroundColor backgroundColor
  match GRAPH_DrawGraph_axes fuel x y foregroundColor with
  | none => none
  | some axes =>
    let plot := GRAPH_DrawGraph_plot data len maxDataLen x y foregroundColor
    let currentFont := tmp
    some (label ++ axes ++ plot, currentFont)

end Graphics

/-! # Software timers of `MyLibraries/Timers/timers.c` -/

namespace Timers

/-- `MAX_SOFT_TIMERS` (timers.c, line 43). -/
def MAX_SOFT_TIMERS : Int := 10

/-- `ID_TO_ARRAY_INDEX` (timers.c, line 44). -/
def ID_TO_ARRAY_INDEX (x : Int) : Int := x - 1

/-- `TIMER_SoftTimerTypedef` (timers.c, lines 49-55).  A callback is embedded as
a number that names it; `none` is the null pointer. -/
structure TIMER_SoftTimerTypedef where
  id : Int
  currentCount : Nat
  overflowValue : Nat
  isActive : Bool
  overflowCb : Option Nat
  deriving DecidableEq

/-- The static variables `softTimers` and `softTimerCount` (timers.c, lines
57-58).  `softTimers i` is the record stored `i` elements after the start of
the array; the array itself has the elements `0, ..., MAX_SOFT_TIMERS - 1`. -/
structure TimerState where
  softTimers : Int → TIMER_SoftTimerTypedef
  softTimerCount : Int

/-- The zero-initialised static variables at program start. -/
def TimerState.empty : TimerState :=
  { softTimers := fun _ =>
      { id := 0, currentCount := 0, overflowValue := 0, isActive := false, overflowCb := none },
    softTimerCount := 0 }

/-- The assignment `softTimers[index].field = ...`, given as a change of the record. -/
def TimerState.assign (s : TimerState) (index : Int)
    (change : TIMER_SoftTimerTypedef → TIMER_SoftTimerTypedef) : TimerState :=
  { s with softTimers := fun i => if i = index then change (s.softTimers i) else s.softTimers i }

/-- `Timer_addSoftwareTimer` (timers.c, lines 154-170): the returned value and the
state after the call.  `TIMER_TOO_MANY_TIMERS` is a constant of `timers.h`, which
is not part of the sources at hand. -/
def Timer_addSoftwareTimer (TIMER_TOO_MANY_TIMERS : Int) (s : TimerState)
    (overflowValue : Nat) (overflowCb : Option Nat) : Int × TimerState :=
  if s.softTimerCount > MAX_SOFT_TIMERS then (TIMER_TOO_MANY_TIMERS, s)
  else
    let s := { s with softTimerCount := s.softTimerCount + 1 }
    let s := s.assign (ID_TO_ARRAY_INDEX s.softTimerCount)
      (fun t => { t with id := s.softTimerCount })
    let s := s.assign (ID_TO_ARRAY_INDEX s.softTimerCount)
      (fun t => { t with overflowCb := overflowCb })
    let s := s.assign (ID_TO_ARRAY_INDEX s.softTimerCount)
      (fun t => { t with overflowValue := overflowValue })
    let s := s.assign (ID_TO_ARRAY_INDEX s.softTimerCount)
      (fun t => { t with currentCount := 0 })
    let s := s.assign (ID_TO_ARRAY_INDEX s.softTimerCount)
      (fun t => { t with isActive := false })
    (s.softTimerCount, s)

/-- The state after `n` successive calls of `Timer_addSoftwareTimer`. -/
def addTimers (TIMER_TOO_MANY_TIMERS : Int) (overflowValue : Nat) (overflowCb : Option Nat) :
    Nat → TimerState → TimerState
  | 0, s => s
  | n + 1, s =>
    addTimers TIMER_TOO_MANY_TIMERS overflowValue overflowCb n
      (Timer_addSoftwareTimer TIMER_TOO_MANY_TIMERS s overflowValue overflowCb).2

/-- `UINT32_MAX` of `<stdint.h>`. -/
def UINT32_MAX : Nat := 4294967295

/-- The sum of two `unsigned int` values: 32-bit arithmetic wraps around. -/
def add32 (a b : Nat) : Nat := (a + b) % 2 ^ 32

/-- The difference of two `unsigned int` values (both below `2 ^ 32`): 32-bit
arithmetic wraps around. -/
def sub32 (a b : Nat) : Nat := (a + 2 ^ 32 - b) % 2 ^ 32

/-- `Timer_delayTimer` (timers.c, lines 132-146).  `currentTimeMillis` is the value
that `Timer_getTimeMillis()` returns, which is the millisecond counter of
`systick.h`, not part of the sources at hand. -/
def Timer_delayTimer (currentTimeMillis millis startTimeMillis : Nat) : Bool :=
  if currentTimeMillis ≥ startTimeMillis ∧ sub32 currentTimeMillis startTimeMillis > millis then
    true
  else if currentTimeMillis < startTimeMillis ∧
      add32 (sub32 UINT32_MAX startTimeMillis) currentTimeMillis > millis then
    true
  else
    false

/-- The value of `deltaMillis` in `Timer_softwareTimersUpdate` (timers.c, lines
205-212). -/
def Timer_softwareTimersUpdate_delta (currentTimeMillis previousTimeMillis : Nat) : Nat :=
  if currentTimeMillis ≥ previousTimeMillis then sub32 currentTimeMillis previousTimeMillis
  else add32 (sub32 UINT32_MAX previousTimeMillis) currentTimeMillis

/-- The body of the loop of `Timer_softwareTimersUpdate` (timers.c, lines 218-228)
for the timer at index `i`: the state afterwards and the callbacks invoked, each
with the index of its timer.  A callback is taken not to touch the table. -/
def Timer_softwareTimersUpdate_body (deltaMillis : Nat) (s : TimerState) (i : Int) :
    TimerState × List (Int × Nat) :=
  if (s.softTimers i).isActive = true then
    let s := s.assign i (fun t => { t with currentCount := add32 t.currentCount deltaMillis })
    if (s.softTimers i).currentCount ≥ (s.softTimers i).overflowValue then
      let s := s.assign i (fun t => { t with currentCount := 0 })
      match (s.softTimers i).overflowCb with
      | some cb => (s, [(i, cb)])
      | none => (s, [])
    else (s, [])
  else (s, [])

/-- The `for` loop of `Timer_softwareTimersUpdate` (timers.c, lines 216-229) with
`n` rounds left and loop counter `i`. -/
def Timer_softwareTimersUpdate_loop (deltaMillis : Nat) :
    Nat → Int → TimerState → TimerState × List (Int × Nat)
  | 0, _, s => (s, [])
  | n + 1, i, s =>
    let r1 := Timer_softwareTimersUpdate_body deltaMillis s i
    let r2 := Timer_softwareTimersUpdate_loop deltaMillis n (i + 1) r1.1
    (r2.1, r1.2 ++ r2.2)

/-- What one call of `Timer_softwareTimersUpdate` leaves behind. -/
structure UpdateResult where
  state : TimerState
  previousTimeMillis : Nat
  callbacks : List (Int × Nat)

/-- `Timer_softwareTimersUpdate` (timers.c, lines 199-230).  `currentTimeMillis` is
the value that `SysTick_getTimeMillis()` returns, `previousTimeMillis` the
function's static variable. -/
def Timer_softwareTimersUpdate (currentTimeMillis previousTimeMillis : Nat) (s : TimerState) :
    UpdateResult :=
  let deltaMillis := Timer_softwareTimersUpdate_delta currentTimeMillis previousTimeMillis
  let previousTimeMillis := add32 previousTimeMillis deltaMillis
  let r := Timer_softwareTimersUpdate_loop deltaMillis s.softTimerCount.toNat 0 s
  { state := r.1, previousTimeMillis := previousTimeMillis, callbacks := r.2 }

/-- The record of one timer after the loop body has run on it. -/
def timerAfter (deltaMillis : Nat) (t : TIMER_SoftTimerTypedef) : TIMER_SoftTimerTypedef :=
  if t.isActive = true then
    if add32 t.currentCount deltaMillis ≥ t.overflowValue then { t with currentCount := 0 }
    else { t with currentCount := add32 t.currentCount deltaMillis }
  else t

/-- The callbacks the loop body invokes for the timer `t` at index `i`. -/
def callbacksOf (deltaMillis : Nat) (i : Int) (t : TIMER_SoftTimerTypedef) : List (Int × Nat) :=
  if t.isActive = true ∧ add32 t.currentCount deltaMillis ≥ t.overflowValue then
    match t.overflowCb with
    | some cb => [(i, cb)]
    | none => []
  else []

/-- A table of three registered timers: a running one that is about to overflow,
a paused one and a running one that is not. -/
def sampleTimers : TimerState :=
  { softTimers := fun i =>
      if i = 0 then
        { id := 1, currentCount := 90, overflowValue := 100, isActive := true,
          overflowCb := some 7 }
      else if i = 1 then
        { id := 2, currentCount := 5, overflowValue := 100, isActive := false,
          overflowCb := some 8 }
      else if i = 2 then
        { id := 3, currentCount := 5, overflowValue := 100, isActive := true,
          overflowCb := some 9 }
      else
        { id := 0, currentCount := 0, overflowValue := 0, isActive := false, overflowCb := none },
    softTimerCount := 3 }

/-- A table with one registered, running timer one millisecond short of its
overflow value. -/
def nearOverflowTimers : TimerState :=
  { softTimers := fun i =>
      if i = 0 then
        { id := 1, currentCount := 99, overflowValue := 100, isActive := true,
          overflowCb := some 7 }
      else
        { id := 0, currentCount := 0, overflowValue := 0, isActive := false, overflowCb := none },
    softTimerCount := 1 }

end Timers

namespace Graphics

/-! ## Colour conversion -/

theorem shift_mask_red (c : Nat) : (c >>> 19) &&& 0x1f = (((c >>> 16) &&& 0xff) >>> 3) := by
  have h1 : (0x1f : Nat) = 2 ^ 5 - 1 := by norm_num
  have h2 : (0xff : Nat) = 2 ^ 8 - 1 := by norm_num
  rw [h1, h2, Nat.and_pow_two_sub_one_eq_mod, Nat.and_pow_two_sub_one_eq_mod]
  simp only [Nat.shiftRight_eq_div_pow]
  omega

theorem shift_mask_green (c : Nat) : (c >>> 10) &&& 0x3f = (((c >>> 8) &&& 0xff) >>> 2) := by
  have h1 : (0x3f : Nat) = 2 ^ 6 - 1 := by norm_num
  have h2 : (0xff : Nat) = 2 ^ 8 - 1 := by norm_num
  rw [h1, h2, Nat.and_pow_two_sub_one_eq_mod, Nat.and_pow_two_sub_one_eq_mod]
  simp only [Nat.shiftRight_eq_div_pow]
  omega

theorem shift_mask_blue (c : Nat) : (c >>> 3) &&& 0x1f = ((c &&& 0xff) >>> 3) := by
  have h1 : (0x1f : Nat) = 2 ^ 5 - 1 := by norm_num
  have h2 : (0xff : Nat) = 2 ^ 8 - 1 := by norm_num
  rw [h1, h2, Nat.and_pow_two_sub_one_eq_mod, Nat.and_pow_two_sub_one_eq_mod]
  simp only [Nat.shiftRight_eq_div_pow]
  omega

/-- C1: for every 24-bit RGB value `c`, `GRAPH_ConvertRgbTo565 c` packs the top
5 bits of the red byte (bits 23..16), the top 6 bits of the green byte (bits
15..8) and the top 5 bits of the blue byte (bits 7..0) as
`((R >> 3) << 11) | ((G >> 2) << 5) | (B >> 3)`; and it maps `0xFF0000` to
`0xF800`, `0x00FF00` to `0x07E0`, `0x0000FF` to `0x001F` and `0xFFFFFF` to
`0xFFFF`. -/
theorem C1_convertRgbTo565 (c : Nat) (hc : c < 2 ^ 24) :
    GRAPH_ConvertRgbTo565 c =
        (((((c >>> 16) &&& 0xff) >>> 3) <<< 11) ||| ((((c >>> 8) &&& 0xff) >>> 2) <<< 5)
          ||| ((c &&& 0xff) >>> 3))
      ∧ GRAPH_ConvertRgbTo565 0xFF0000 = 0xF800
      ∧ GRAPH_ConvertRgbTo565 0x00FF00 = 0x07E0
      ∧ GRAPH_ConvertRgbTo565 0x0000FF = 0x001F
      ∧ GRAPH_ConvertRgbTo565 0xFFFFFF = 0xFFFF := by
  have _ := hc
  refine ⟨?_, by decide, by decide, by decide, by decide⟩
  unfold GRAPH_ConvertRgbTo565
  simp only [shift_mask_red, shift_mask_green, shift_mask_blue]

theorem C1_convertRgbTo565_witness :
    (0x123456 : Nat) < 2 ^ 24 ∧ GRAPH_ConvertRgbTo565 0x123456 = 0x11AA :=
  ⟨by decide, (C1_convertRgbTo565 0x123456 (by decide)).1.trans (by decide)⟩

/-! ## Filled rectangle: the driver calls -/

theorem forLoop_const (n : Nat) (a : DriverCall) :
    (List.range n).flatMap (fun _ => [a]) = List.replicate n a := by
  induction n with
  | zero => rfl
  | succ k ih =>
    rw [List.range_succ, List.flatMap_append, ih, List.replicate_succ']
    rfl

theorem GRAPH_DrawRectangle_eq (x y : Int) (W H : Nat) (color : Nat) :
    GRAPH_DrawRectangle x y W H color =
      DriverCall.setWindow x y W H :: DriverCall.setGramAddress x y ::
        List.replicate (W * H) (DriverCall.drawNextPixel (GRAPH_ConvertRgbTo565 color)) := by
  unfold GRAPH_DrawRectangle forLoop
  have h : ((W : Int) * (H : Int)).toNat = W * H := by
    rw [← Nat.cast_mul]; exact Int.toNat_natCast _
  rw [h]
  simp only [forLoop_const]
  rfl

/-- C2: for `w >= 0` and `h >= 0`, `GRAPH_DrawRectangle x y w h color` issues
`setWindow(x, y, w, h)`, then `setGramAddress(x, y)`, then exactly `w * h` calls
of `drawNextPixel`, each with `GRAPH_ConvertRgbTo565 color`, and nothing else;
with `w = 0` or `h = 0` there is no pixel write. -/
theorem C2_drawRectangle_calls (x y w h : Int) (color : Nat) (hw : 0 ≤ w) (hh : 0 ≤ h) :
    GRAPH_DrawRectangle x y w h color =
        DriverCall.setWindow x y w h :: DriverCall.setGramAddress x y ::
          List.replicate (w.toNat * h.toNat)
            (DriverCall.drawNextPixel (GRAPH_ConvertRgbTo565 color))
      ∧ ((w.toNat * h.toNat : Nat) : Int) = w * h
      ∧ ((w = 0 ∨ h = 0) →
          GRAPH_DrawRectangle x y w h color =
            [DriverCall.setWindow x y w h, DriverCall.setGramAddress x y]) := by
  obtain ⟨W, rfl⟩ := Int.eq_ofNat_of_zero_le hw
  obtain ⟨H, rfl⟩ := Int.eq_ofNat_of_zero_le hh
  refine ⟨by simpa using GRAPH_DrawRectangle_eq x y W H color, by simp, ?_⟩
  intro h0
  rw [GRAPH_DrawRectangle_eq]
  have hz : W * H = 0 := by
    rcases h0 with h0 | h0
    · have : W = 0 := by exact_mod_cast h0
      simp [this]
    · have : H = 0 := by exact_mod_cast h0
      simp [this]
  rw [hz]
  rfl

theorem C2_drawRectangle_calls_witness :
    GRAPH_DrawRectangle 3 4 2 1 0xFF0000 =
      [DriverCall.setWindow 3 4 2 1, DriverCall.setGramAddress 3 4,
        DriverCall.drawNextPixel 0xF800, DriverCall.drawNextPixel 0xF800] :=
  (C2_drawRectangle_calls 3 4 2 1 0xFF0000 (by decide) (by decide)).1.trans (by decide)

/-! ## Filled rectangle: the pixels a recording driver sees -/

theorem RecordingDriver.run_append (d : RecordingDriver) (a b : List DriverCall) :
    d.run (a ++ b) = (d.run a).run b := by
  simp [RecordingDriver.run, List.foldl_append]

theorem RecordingDriver.run_cons (d : RecordingDriver) (a : DriverCall) (l : List DriverCall) :
    d.run (a :: l) = (d.step a).run l := rfl

/-- One row segment: `k` writes starting at column offset `i` of a window of
width `W`, not running past the right edge. -/
theorem run_row_segment (x : Int) (W : Nat) (c : Nat) :
    ∀ (k i : Nat) (d : RecordingDriver), d.winX = x → d.winW = W → d.curX = x + i →
      i + k ≤ W → (0 < k → i < W) →
      (d.run (List.replicate k (DriverCall.drawNextPixel c))).writes =
          d.writes ++ (List.range k).map (fun (t : Nat) => ((x + i + (t : Int), d.curY), c))
        ∧ (d.run (List.replicate k (DriverCall.drawNextPixel c))).winX = x
        ∧ (d.run (List.replicate k (DriverCall.drawNextPixel c))).winW = W
        ∧ (i + k < W ∨ k = 0 →
            (d.run (List.replicate k (DriverCall.drawNextPixel c))).curX = x + i + (k : Int)
            ∧ (d.run (List.replicate k (DriverCall.drawNextPixel c))).curY = d.curY)
        ∧ (i + k = W → 0 < k →
            (d.run (List.replicate k (DriverCall.drawNextPixel c))).curX = x
            ∧ (d.run (List.replicate k (DriverCall.drawNextPixel c))).curY = d.curY + 1) := by
  intro k
  induction k with
  | zero =>
    intro i d hx hw hc _ _
    simp [RecordingDriver.run, hx, hw, hc]
  | succ k ih =>
    intro i d hx hw hc hle hlt
    rw [List.replicate_succ, RecordingDriver.run_cons]
    have hstep : d.step (DriverCall.drawNextPixel c) =
        if d.curX + 1 < d.winX + d.winW then
          { d with curX := d.curX + 1, writes := d.writes ++ [((d.curX, d.curY), c)] }
        else
          { d with curX := d.winX, curY := d.curY + 1,
                   writes := d.writes ++ [((d.curX, d.curY), c)] } := rfl
    have hrange : (List.range (k + 1)).map (fun (t : Nat) => ((x + i + (t : Int), d.curY), c)) =
        ((x + i, d.curY), c) ::
          (List.range k).map (fun (t : Nat) => ((x + ((i + 1 : Nat) : Int) + (t : Int), d.curY), c)) := by
      rw [List.range_succ_eq_map, List.map_cons, List.map_map]
      simp only [Nat.cast_zero, add_zero, List.cons.injEq, true_and]
      apply List.map_congr_left
      intro t _
      simp only [Function.comp, Nat.succ_eq_add_one, Nat.cast_add, Nat.cast_one]
      congr 2
      ring
    by_cases hin : i + 1 < W
    · have hcond : d.curX + 1 < d.winX + d.winW := by rw [hc, hx, hw]; omega
      rw [hstep, if_pos hcond]
      obtain ⟨h1, h2, h3, h4, h5⟩ := ih (i + 1)
        { d with curX := d.curX + 1, writes := d.writes ++ [((d.curX, d.curY), c)] }
        hx hw (by simp [hc]; ring) (by omega) (fun _ => hin)
      refine ⟨?_, h2, h3, ?_, ?_⟩
      · rw [h1, hrange, hc]; simp
      · intro h
        have := h4 (by omega)
        refine ⟨?_, this.2⟩
        rw [this.1]; push_cast; ring
      · intro h _
        have hk : 0 < k := by omega
        exact h5 (by omega) hk
    · have hk : k = 0 := by omega
      have hi : i + 1 = W := by omega
      subst hk
      have hcond : ¬ d.curX + 1 < d.winX + d.winW := by rw [hc, hx, hw]; omega
      rw [hstep, if_neg hcond]
      simp [RecordingDriver.run, hx, hw, hc]
      exact ⟨by simp [List.range_succ], by omega⟩

theorem run_rows (x : Int) (W : Nat) (c : Nat) (hW : 0 < W) :
    ∀ (H : Nat) (y : Int) (d : RecordingDriver), d.winX = x → d.winW = W → d.curX = x →
      d.curY = y →
      (d.run (List.replicate (W * H) (DriverCall.drawNextPixel c))).writes =
          d.writes ++ rowsWritten x y W H c
        ∧ (d.run (List.replicate (W * H) (DriverCall.drawNextPixel c))).winX = x
        ∧ (d.run (List.replicate (W * H) (DriverCall.drawNextPixel c))).winW = W
        ∧ (d.run (List.replicate (W * H) (DriverCall.drawNextPixel c))).curX = x
        ∧ (d.run (List.replicate (W * H) (DriverCall.drawNextPixel c))).curY = y + (H : Int) := by
  intro H
  induction H with
  | zero =>
    intro y d hx hw hcx hcy
    simp [RecordingDriver.run, rowsWritten, hx, hw, hcx, hcy]
  | succ H ih =>
    intro y d hx hw hcx hcy
    have hsplit : W * (H + 1) = W * H + W := by ring
    rw [hsplit, List.replicate_add, RecordingDriver.run_append]
    obtain ⟨h1, h2, h3, h4, h5⟩ := ih y d hx hw hcx hcy
    obtain ⟨r1, r2, r3, _, r5⟩ := run_row_segment x W c W 0
      (d.run (List.replicate (W * H) (DriverCall.drawNextPixel c))) h2 h3 (by simpa using h4)
      (by omega) (fun _ => hW)
    obtain ⟨r5x, r5y⟩ := r5 (by omega) hW
    refine ⟨?_, r2, r3, r5x, ?_⟩
    · rw [r1, h1, h5, List.append_assoc]
      congr 1
      simp [rowsWritten, List.range_succ, List.flatMap_append]
    · rw [r5y, h5]; push_cast; ring

theorem writesAt_append (a b : List ((Int × Int) × Nat)) (p : Int × Int) :
    writesAt (a ++ b) p = writesAt a p ++ writesAt b p := by
  simp [writesAt, List.filter_append]

theorem writesAt_row (x yy : Int) (c : Nat) (p : Int × Int) :
    ∀ W : Nat,
      writesAt ((List.range W).map (fun (i : Nat) => ((x + (i : Int), yy), c))) p =
        if p.2 = yy ∧ x ≤ p.1 ∧ p.1 < x + W then [(p, c)] else [] := by
  intro W
  induction W with
  | zero =>
    have : ¬ (p.2 = yy ∧ x ≤ p.1 ∧ p.1 < x + ((0 : Nat) : Int)) := by
      intro h; have := h.2.1; have := h.2.2; simp at *; omega
    rw [if_neg this]; rfl
  | succ W ih =>
    rw [List.range_succ, List.map_append, writesAt_append, ih]
    obtain ⟨px, py⟩ := p
    simp only [List.map_cons, List.map_nil, writesAt, List.filter_cons, List.filter_nil,
      Prod.mk.injEq, decide_eq_true_eq]
    by_cases h1 : py = yy ∧ x ≤ px ∧ px < x + (W : Int)
    · have h2 : ¬ (x + (W : Int) = px ∧ yy = py) := by omega
      have h3 : py = yy ∧ x ≤ px ∧ px < x + ((W + 1 : Nat) : Int) := by
        push_cast; omega
      rw [if_pos h1, if_neg h2, if_pos h3]; rfl
    · by_cases h2 : x + (W : Int) = px ∧ yy = py
      · have h3 : py = yy ∧ x ≤ px ∧ px < x + ((W + 1 : Nat) : Int) := by
          push_cast; omega
        rw [if_neg h1, if_pos h2, if_pos h3]
        obtain ⟨h2a, h2b⟩ := h2
        subst h2a; subst h2b; rfl
      · have h3 : ¬ (py = yy ∧ x ≤ px ∧ px < x + ((W + 1 : Nat) : Int)) := by
          push_cast; omega
        rw [if_neg h1, if_neg h2, if_neg h3]; rfl

theorem writesAt_rows (x y : Int) (W : Nat) (c : Nat) (p : Int × Int) :
    ∀ H : Nat,
      writesAt (rowsWritten x y W H c) p =
        if x ≤ p.1 ∧ p.1 < x + W ∧ y ≤ p.2 ∧ p.2 < y + H then [(p, c)] else [] := by
  intro H
  induction H with
  | zero =>
    have : ¬ (x ≤ p.1 ∧ p.1 < x + (W : Int) ∧ y ≤ p.2 ∧ p.2 < y + ((0 : Nat) : Int)) := by
      intro h; have := h.2.2.1; have := h.2.2.2; simp at *; omega
    rw [if_neg this]; rfl
  | succ H ih =>
    have hsplit : rowsWritten x y W (H + 1) c =
        rowsWritten x y W H c ++
          (List.range W).map (fun (i : Nat) => ((x + (i : Int), y + (H : Int)), c)) := by
      simp [rowsWritten, List.range_succ, List.flatMap_append]
    rw [hsplit, writesAt_append, ih, writesAt_row]
    by_cases h1 : x ≤ p.1 ∧ p.1 < x + (W : Int) ∧ y ≤ p.2 ∧ p.2 < y + (H : Int)
    · have h2 : ¬ (p.2 = y + (H : Int) ∧ x ≤ p.1 ∧ p.1 < x + (W : Int)) := by omega
      have h3 : x ≤ p.1 ∧ p.1 < x + (W : Int) ∧ y ≤ p.2 ∧ p.2 < y + ((H + 1 : Nat) : Int) := by
        push_cast; omega
      rw [if_pos h1, if_neg h2, if_pos h3]; rfl
    · by_cases h2 : p.2 = y + (H : Int) ∧ x ≤ p.1 ∧ p.1 < x + (W : Int)
      · have h3 : x ≤ p.1 ∧ p.1 < x + (W : Int) ∧ y ≤ p.2 ∧ p.2 < y + ((H + 1 : Nat) : Int) := by
          push_cast; omega
        rw [if_neg h1, if_pos h2, if_pos h3]; rfl
      · have h3 : ¬ (x ≤ p.1 ∧ p.1 < x + (W : Int) ∧ y ≤ p.2 ∧
            p.2 < y + ((H + 1 : Nat) : Int)) := by
          push_cast; omega
        rw [if_neg h1, if_neg h2, if_neg h3]; rfl

/-- C3: on a recording driver with an empty log that follows the cursor rule,
`GRAPH_DrawRectangle x y w h color` with `w, h >= 0` leaves exactly one write,
of colour `GRAPH_ConvertRgbTo565 color`, on every pixel `(x+i, y+j)` with
`0 <= i < w` and `0 <= j < h`, and no write on any other pixel. -/
theorem C3_drawRectangle_recorded (d : RecordingDriver) (x y w h : Int) (color : Nat)
    (hw : 0 ≤ w) (hh : 0 ≤ h) (hd : d.writes = []) (p : Int × Int) :
    writesAt (d.run (GRAPH_DrawRectangle x y w h color)).writes p =
      if x ≤ p.1 ∧ p.1 < x + w ∧ y ≤ p.2 ∧ p.2 < y + h then
        [(p, GRAPH_ConvertRgbTo565 color)]
      else [] := by
  obtain ⟨W, rfl⟩ := Int.eq_ofNat_of_zero_le hw
  obtain ⟨H, rfl⟩ := Int.eq_ofNat_of_zero_le hh
  rw [GRAPH_DrawRectangle_eq, RecordingDriver.run_cons, RecordingDriver.run_cons]
  rcases Nat.eq_zero_or_pos W with hW | hW
  · subst hW
    have : ¬ (x ≤ p.1 ∧ p.1 < x + ((0 : Nat) : Int) ∧ y ≤ p.2 ∧ p.2 < y + (H : Int)) := by
      intro h; have := h.1; have := h.2.1; simp at *; omega
    rw [if_neg this]
    simp [RecordingDriver.run, RecordingDriver.step, hd, writesAt]
  · obtain ⟨h1, _⟩ := run_rows x W (GRAPH_ConvertRgbTo565 color) hW H y
      ((d.step (DriverCall.setWindow x y W H)).step (DriverCall.setGramAddress x y))
      rfl rfl rfl rfl
    rw [h1, writesAt_append, writesAt_rows]
    simp [RecordingDriver.step, hd, writesAt]

theorem C3_drawRectangle_recorded_witness :
    writesAt
        ((RecordingDriver.mk 0 0 0 0 0 0 []).run (GRAPH_DrawRectangle 3 4 2 2 0xFF0000)).writes
        (4, 5) = [((4, 5), 0xF800)] :=
  (C3_drawRectangle_recorded (RecordingDriver.mk 0 0 0 0 0 0 []) 3 4 2 2 0xFF0000
    (by decide) (by decide) rfl (4, 5)).trans (by decide)

/-! ## Lines: the pixels of a line -/

theorem line_loop_xmajor (dx dy sx sy x2 y2 e0 : Int) (color : Nat) (hlt : dy < dx)
    (hdy : 0 ≤ dy) (hsx : sx = 1 ∨ sx = -1) (hsy : sy = 1 ∨ sy = -1)
    (he0 : 0 ≤ e0) (he0' : e0 < dx) :
    ∀ (r fuel : Nat) (x y err q : Int), r + 1 ≤ fuel → x = x2 - sx * r → y = y2 - sy * q →
      0 ≤ err → err < dx → err = e0 + r * dy - q * dx →
      ∃ pts : List (Int × Int),
        GRAPH_DrawLine_loop dx dy sx sy x2 y2 color fuel x y err = some (pixelCalls color pts)
        ∧ pts.length = r + 1 ∧ pts.head? = some (x, y) ∧ pts.getLast? = some (x2, y2)
        ∧ List.Chain' Adjacent pts ∧ 0 ≤ q
        ∧ ∀ p ∈ pts, LineInvariant dx dy sx sy x2 y2 e0 0 dx r q p := by
  intro r
  induction r with
  | zero =>
    intro fuel x y err q hf hx hy h0 h1 herr
    have hq : q = 0 := by
      simp only [Nat.cast_zero, zero_mul, add_zero] at herr
      by_contra hne
      rcases lt_or_gt_of_ne hne with h | h
      · nlinarith
      · nlinarith
    subst hq
    have hx' : x = x2 := by simp [hx]
    have hy' : y = y2 := by simp [hy]
    obtain ⟨f, rfl⟩ : ∃ f, fuel = f + 1 := ⟨fuel - 1, by omega⟩
    refine ⟨[(x, y)], ?_, rfl, rfl, by simp [hx', hy'], by simp, le_refl _, ?_⟩
    · simp [GRAPH_DrawLine_loop, hx', hy', pixelCalls]
    · intro p hp
      simp only [List.mem_singleton] at hp
      refine ⟨0, 0, le_refl _, by simp, le_refl _, le_refl _, ?_, ?_, ?_⟩
      · simp [hp, hx', hy']
      · simpa using he0
      · simpa using he0'
  | succ r ih =>
    intro fuel x y err q hf hx hy h0 h1 herr
    obtain ⟨f, rfl⟩ : ∃ f, fuel = f + 1 := ⟨fuel - 1, by omega⟩
    have hne : ¬ (x = x2 ∧ y = y2) := by
      rintro ⟨hxx, _⟩
      rw [hxx] at hx
      have hr : (0 : Int) ≤ r := Int.natCast_nonneg r
      push_cast at hx
      rcases hsx with h | h <;> rw [h] at hx <;> omega
    have hgt : err > -dx := by omega
    have hxs : x + sx = x2 - sx * (r : Int) := by rw [hx]; push_cast; ring
    have hadjx : |x + sx - x| ≤ 1 := by
      rcases hsx with h | h <;> rw [h] <;> simp
    by_cases hy1 : err < dy
    · obtain ⟨pts, hrun, hlen, hhead, hlast, hchain, hq, hinv⟩ :=
        ih f (x + sx) (y + sy) (err - dy + dx) (q - 1) (by omega) hxs
          (by rw [hy]; ring) (by omega) (by omega) (by rw [herr]; push_cast; ring)
      refine ⟨(x, y) :: pts, ?_, by simp [hlen], rfl, ?_, ?_, by omega, ?_⟩
      · simp [GRAPH_DrawLine_loop, hne, hgt, hy1, hrun, pixelCalls]
      · rw [List.getLast?_cons, hlast]; rfl
      · rw [List.chain'_cons']
        refine ⟨?_, hchain⟩
        intro z hz
        rw [hhead] at hz
        simp only [Option.mem_def, Option.some.injEq] at hz
        subst hz
        refine ⟨hadjx, ?_⟩
        rcases hsy with h | h <;> rw [h] <;> simp
      · intro p hp
        rcases List.mem_cons.mp hp with hp | hp
        · refine ⟨(r + 1 : Nat), q, Int.natCast_nonneg _, le_refl _, by omega, le_refl _, ?_, ?_, ?_⟩
          · rw [hp, hx, hy]
          · rw [← herr]; exact h0
          · rw [← herr]; exact h1
        · obtain ⟨r', q', a1, a2, a3, a4, a5, a6, a7⟩ := hinv p hp
          exact ⟨r', q', a1, by push_cast; omega, a3, by omega, a5, a6, a7⟩
    · obtain ⟨pts, hrun, hlen, hhead, hlast, hchain, hq, hinv⟩ :=
        ih f (x + sx) y (err - dy) q (by omega) hxs hy (by omega) (by omega)
          (by rw [herr]; push_cast; ring)
      refine ⟨(x, y) :: pts, ?_, by simp [hlen], rfl, ?_, ?_, hq, ?_⟩
      · simp [GRAPH_DrawLine_loop, hne, hgt, hy1, hrun, pixelCalls]
      · rw [List.getLast?_cons, hlast]; rfl
      · rw [List.chain'_cons']
        refine ⟨?_, hchain⟩
        intro z hz
        rw [hhead] at hz
        simp only [Option.mem_def, Option.some.injEq] at hz
        subst hz
        exact ⟨hadjx, by simp⟩
      · intro p hp
        rcases List.mem_cons.mp hp with hp | hp
        · refine ⟨(r + 1 : Nat), q, Int.natCast_nonneg _, le_refl _, hq, le_refl _, ?_, ?_, ?_⟩
          · rw [hp, hx, hy]
          · rw [← herr]; exact h0
          · rw [← herr]; exact h1
        · obtain ⟨r', q', a1, a2, a3, a4, a5, a6, a7⟩ := hinv p hp
          exact ⟨r', q', a1, by push_cast; omega, a3, a4, a5, a6, a7⟩

theorem line_loop_ymajor (dx dy sx sy x2 y2 e0 : Int) (color : Nat) (hle : dx ≤ dy)
    (hdx : 0 ≤ dx) (hsx : sx = 1 ∨ sx = -1) (hsy : sy = 1 ∨ sy = -1)
    (he0 : -dy + 1 ≤ e0) (he0' : e0 < 1) :
    ∀ (q fuel : Nat) (x y err r : Int), q + 1 ≤ fuel → x = x2 - sx * r → y = y2 - sy * q →
      -dy + 1 ≤ err → err < 1 → err = e0 + r * dy - q * dx →
      ∃ pts : List (Int × Int),
        GRAPH_DrawLine_loop dx dy sx sy x2 y2 color fuel x y err = some (pixelCalls color pts)
        ∧ pts.length = q + 1 ∧ pts.head? = some (x, y) ∧ pts.getLast? = some (x2, y2)
        ∧ List.Chain' Adjacent pts ∧ 0 ≤ r
        ∧ ∀ p ∈ pts, LineInvariant dx dy sx sy x2 y2 e0 (-dy + 1) 1 r q p := by
  intro q
  induction q with
  | zero =>
    intro fuel x y err r hf hx hy h0 h1 herr
    have hr : r = 0 := by
      simp only [Nat.cast_zero, zero_mul, sub_zero] at herr
      by_contra hne
      rcases lt_or_gt_of_ne hne with h | h
      · nlinarith
      · nlinarith
    subst hr
    have hx' : x = x2 := by simp [hx]
    have hy' : y = y2 := by simp [hy]
    obtain ⟨f, rfl⟩ : ∃ f, fuel = f + 1 := ⟨fuel - 1, by omega⟩
    refine ⟨[(x, y)], ?_, rfl, rfl, by simp [hx', hy'], by simp, le_refl _, ?_⟩
    · simp [GRAPH_DrawLine_loop, hx', hy', pixelCalls]
    · intro p hp
      simp only [List.mem_singleton] at hp
      refine ⟨0, 0, le_refl _, le_refl _, le_refl _, by simp, ?_, ?_, ?_⟩
      · simp [hp, hx', hy']
      · simpa using he0
      · simpa using he0'
  | succ q ih =>
    intro fuel x y err r hf hx hy h0 h1 herr
    obtain ⟨f, rfl⟩ : ∃ f, fuel = f + 1 := ⟨fuel - 1, by omega⟩
    have hne : ¬ (x = x2 ∧ y = y2) := by
      rintro ⟨_, hyy⟩
      rw [hyy] at hy
      have hq : (0 : Int) ≤ q := Int.natCast_nonneg q
      push_cast at hy
      rcases hsy with h | h <;> rw [h] at hy <;> omega
    have hlt : err < dy := by omega
    have hys : y + sy = y2 - sy * (q : Int) := by rw [hy]; push_cast; ring
    have hadjy : |y + sy - y| ≤ 1 := by
      rcases hsy with h | h <;> rw [h] <;> simp
    by_cases hx1 : err > -dx
    · obtain ⟨pts, hrun, hlen, hhead, hlast, hchain, hr, hinv⟩ :=
        ih f (x + sx) (y + sy) (err - dy + dx) (r - 1) (by omega) (by rw [hx]; ring) hys
          (by omega) (by omega) (by rw [herr]; push_cast; ring)
      refine ⟨(x, y) :: pts, ?_, by simp [hlen], rfl, ?_, ?_, by omega, ?_⟩
      · simp [GRAPH_DrawLine_loop, hne, hx1, hlt, hrun, pixelCalls]
      · rw [List.getLast?_cons, hlast]; rfl
      · rw [List.chain'_cons']
        refine ⟨?_, hchain⟩
        intro z hz
        rw [hhead] at hz
        simp only [Option.mem_def, Option.some.injEq] at hz
        subst hz
        refine ⟨?_, hadjy⟩
        rcases hsx with h | h <;> rw [h] <;> simp
      · intro p hp
        rcases List.mem_cons.mp hp with hp | hp
        · refine ⟨r, (q + 1 : Nat), by omega, le_refl _, Int.natCast_nonneg _, le_refl _,
            ?_, ?_, ?_⟩
          · rw [hp, hx, hy]
          · rw [← herr]; exact h0
          · rw [← herr]; exact h1
        · obtain ⟨r', q', a1, a2, a3, a4, a5, a6, a7⟩ := hinv p hp
          exact ⟨r', q', a1, by omega, a3, by push_cast; omega, a5, a6, a7⟩
    · obtain ⟨pts, hrun, hlen, hhead, hlast, hchain, hr, hinv⟩ :=
        ih f x (y + sy) (err + dx) r (by omega) hx hys (by omega) (by omega)
          (by rw [herr]; push_cast; ring)
      refine ⟨(x, y) :: pts, ?_, by simp [hlen], rfl, ?_, ?_, hr, ?_⟩
      · simp [GRAPH_DrawLine_loop, hne, hx1, hlt, hrun, pixelCalls]
      · rw [List.getLast?_cons, hlast]; rfl
      · rw [List.chain'_cons']
        refine ⟨?_, hchain⟩
        intro z hz
        rw [hhead] at hz
        simp only [Option.mem_def, Option.some.injEq] at hz
        subst hz
        exact ⟨by simp, hadjy⟩
      · intro p hp
        rcases List.mem_cons.mp hp with hp | hp
        · refine ⟨r, (q + 1 : Nat), hr, le_refl _, Int.natCast_nonneg _, le_refl _, ?_, ?_, ?_⟩
          · rw [hp, hx, hy]
          · rw [← herr]; exact h0
          · rw [← herr]; exact h1
        · obtain ⟨r', q', a1, a2, a3, a4, a5, a6, a7⟩ := hinv p hp
          exact ⟨r', q', a1, a2, a3, by push_cast; omega, a5, a6, a7⟩

theorem GRAPH_DrawLine_loop_mono (dx dy sx sy x2 y2 : Int) (color : Nat) :
    ∀ (fuel : Nat) (x y err : Int) (l : List DriverCall),
      GRAPH_DrawLine_loop dx dy sx sy x2 y2 color fuel x y err = some l →
      ∀ fuel', fuel ≤ fuel' →
        GRAPH_DrawLine_loop dx dy sx sy x2 y2 color fuel' x y err = some l := by
  intro fuel
  induction fuel with
  | zero => intro x y err l h; simp [GRAPH_DrawLine_loop] at h
  | succ f ih =>
    intro x y err l h fuel' hf
    obtain ⟨f', rfl⟩ : ∃ f', fuel' = f' + 1 := ⟨fuel' - 1, by omega⟩
    rw [GRAPH_DrawLine_loop] at h ⊢
    by_cases hend : x = x2 ∧ y = y2
    · rw [if_pos hend] at h ⊢; exact h
    · rw [if_neg hend] at h ⊢
      simp only [Option.map_eq_some'] at h ⊢
      obtain ⟨l0, h0, hl⟩ := h
      exact ⟨l0, ih _ _ _ _ h0 f' (by omega), hl⟩

/-- The line parameters computed at the head of `GRAPH_DrawLine`. -/
theorem GRAPH_DrawLine_eq (fuel : Nat) (x1 y1 x2 y2 : Int) (color : Nat) :
    GRAPH_DrawLine fuel x1 y1 x2 y2 color =
      GRAPH_DrawLine_loop |x2 - x1| |y2 - y1| (if x1 < x2 then 1 else -1)
        (if y1 < y2 then 1 else -1) x2 y2 color fuel x1 y1
        (Int.tdiv (if |x2 - x1| > |y2 - y1| then |x2 - x1| else -|y2 - y1|) 2) := by
  have hx : (if x2 > x1 then x2 - x1 else x1 - x2) = |x2 - x1| := by
    split_ifs with h
    · rw [abs_of_nonneg (by omega)]
    · rw [abs_of_nonpos (by omega)]; ring
  have hy : (if y2 > y1 then y2 - y1 else y1 - y2) = |y2 - y1| := by
    split_ifs with h
    · rw [abs_of_nonneg (by omega)]
    · rw [abs_of_nonpos (by omega)]; ring
  simp only [GRAPH_DrawLine, hx, hy]

/-- The pixels of a line, with the facts the claims about lines need. -/
theorem GRAPH_DrawLine_pixels (x1 y1 x2 y2 : Int) (color : Nat) :
    ∃ pts : List (Int × Int),
      (∀ fuel, pts.length ≤ fuel →
        GRAPH_DrawLine fuel x1 y1 x2 y2 color = some (pixelCalls color pts))
      ∧ (pts.length : Int) = max |x2 - x1| |y2 - y1| + 1
      ∧ pts.head? = some (x1, y1) ∧ pts.getLast? = some (x2, y2)
      ∧ List.Chain' Adjacent pts := by
  have hdx : 0 ≤ |x2 - x1| := abs_nonneg _
  have hdy : 0 ≤ |y2 - y1| := abs_nonneg _
  have hsx : (if x1 < x2 then (1 : Int) else -1) = 1 ∨ (if x1 < x2 then (1 : Int) else -1) = -1 := by
    split_ifs <;> simp
  have hsy : (if y1 < y2 then (1 : Int) else -1) = 1 ∨ (if y1 < y2 then (1 : Int) else -1) = -1 := by
    split_ifs <;> simp
  have hx1 : x1 = x2 - (if x1 < x2 then (1 : Int) else -1) * |x2 - x1| := by
    split_ifs with h
    · rw [abs_of_nonneg (by omega)]; ring
    · rw [abs_of_nonpos (by omega)]; ring
  have hy1 : y1 = y2 - (if y1 < y2 then (1 : Int) else -1) * |y2 - y1| := by
    split_ifs with h
    · rw [abs_of_nonneg (by omega)]; ring
    · rw [abs_of_nonpos (by omega)]; ring
  by_cases hmaj : |x2 - x1| > |y2 - y1|
  · have hnat : ((|x2 - x1|).toNat : Int) = |x2 - x1| := Int.toNat_of_nonneg hdx
    have he : Int.tdiv |x2 - x1| 2 = |x2 - x1| / 2 :=
      Int.tdiv_eq_ediv hdx (by decide)
    have hmax : max |x2 - x1| |y2 - y1| = |x2 - x1| := max_eq_left (le_of_lt hmaj)
    have key :=
      line_loop_xmajor |x2 - x1| |y2 - y1| (if x1 < x2 then 1 else -1)
        (if y1 < y2 then 1 else -1) x2 y2 (|x2 - x1| / 2) color hmaj hdy hsx hsy
        (by omega) (by omega) (|x2 - x1|).toNat ((|x2 - x1|).toNat + 1) x1 y1 (|x2 - x1| / 2) |y2 - y1| (le_refl _)
        (by rw [hnat]; exact hx1) hy1 (by omega) (by omega) (by rw [hnat]; ring)
    obtain ⟨pts, hrun, hlen, hhead, hlast, hchain, _, _⟩ := key
    refine ⟨pts, ?_, ?_, hhead, hlast, hchain⟩
    · intro fuel hf
      rw [GRAPH_DrawLine_eq, if_pos hmaj, he]
      exact GRAPH_DrawLine_loop_mono _ _ _ _ _ _ _ _ _ _ _ _ hrun fuel (by omega)
    · rw [hlen, hmax]; push_cast; rw [hnat]
  · have hle : |x2 - x1| ≤ |y2 - y1| := not_lt.mp hmaj
    have hmax : max |x2 - x1| |y2 - y1| = |y2 - y1| := max_eq_right hle
    rcases eq_or_lt_of_le hdy with hzero | hpos
    · have hdx0 : |x2 - x1| = 0 := by omega
      have hxe : x1 = x2 := by
        have := abs_eq_zero.mp hdx0; omega
      have hye : y1 = y2 := by
        have := abs_eq_zero.mp hzero.symm; omega
      refine ⟨[(x1, y1)], ?_, ?_, rfl, by simp [hxe, hye], by simp⟩
      · intro fuel hf
        obtain ⟨f, rfl⟩ : ∃ f, fuel = f + 1 := ⟨fuel - 1, by simp at hf; omega⟩
        simp [GRAPH_DrawLine, GRAPH_DrawLine_loop, hxe, hye, pixelCalls]
      · rw [hmax, ← hzero]; simp
    · have hnat : ((|y2 - y1|).toNat : Int) = |y2 - y1| := Int.toNat_of_nonneg hdy
      have he : Int.tdiv (-|y2 - y1|) 2 = -(|y2 - y1| / 2) := by
        rw [Int.neg_tdiv, Int.tdiv_eq_ediv hdy (by decide)]
      have key :=
        line_loop_ymajor |x2 - x1| |y2 - y1| (if x1 < x2 then 1 else -1)
          (if y1 < y2 then 1 else -1) x2 y2 (-(|y2 - y1| / 2)) color hle hdx hsx hsy
          (by omega) (by omega) (|y2 - y1|).toNat ((|y2 - y1|).toNat + 1) x1 y1
          (-(|y2 - y1| / 2)) |x2 - x1| (le_refl _) hx1 (by rw [hnat]; exact hy1)
          (by omega) (by omega) (by rw [hnat]; ring)
      obtain ⟨pts, hrun, hlen, hhead, hlast, hchain, _, _⟩ := key
      refine ⟨pts, ?_, ?_, hhead, hlast, hchain⟩
      · intro fuel hf
        rw [GRAPH_DrawLine_eq, if_neg hmaj, he]
        exact GRAPH_DrawLine_loop_mono _ _ _ _ _ _ _ _ _ _ _ _ hrun fuel (by omega)
      · rw [hlen, hmax]; push_cast; rw [hnat]

/-- C4: for all integer end points `GRAPH_DrawLine` terminates (every fuel from
the pixel count on gives the same result); it issues exactly
`max(|x2-x1|, |y2-y1|) + 1` calls of `drawPixel`, the first at `(x1, y1)`, the
last at `(x2, y2)`, and consecutive pixels differ by at most one in each
coordinate. -/
theorem C4_drawLine_terminates (x1 y1 x2 y2 : Int) (color : Nat) :
    ∃ pts : List (Int × Int),
      (∀ fuel, pts.length ≤ fuel →
        GRAPH_DrawLine fuel x1 y1 x2 y2 color = some (pixelCalls color pts))
      ∧ (pts.length : Int) = max |x2 - x1| |y2 - y1| + 1
      ∧ pts.head? = some (x1, y1) ∧ pts.getLast? = some (x2, y2)
      ∧ List.Chain' Adjacent pts :=
  GRAPH_DrawLine_pixels x1 y1 x2 y2 color

theorem C4_drawLine_terminates_witness :
    ∃ pts : List (Int × Int),
      (∀ fuel, pts.length ≤ fuel →
        GRAPH_DrawLine fuel 0 0 3 (-2) 7 = some (pixelCalls 7 pts))
      ∧ (pts.length : Int) = max |(3 : Int) - 0| |(-2 : Int) - 0| + 1
      ∧ pts.head? = some (0, 0) ∧ pts.getLast? = some (3, -2)
      ∧ List.Chain' Adjacent pts :=
  C4_drawLine_terminates 0 0 3 (-2) 7

theorem line_loop_horizontal (dx sx sy x2 y e : Int) (color : Nat) (hdx : 0 < dx)
    (he : 0 ≤ e) (hsx : sx = 1 ∨ sx = -1) :
    ∀ (r fuel : Nat) (x : Int), r + 1 ≤ fuel → x = x2 - sx * r →
      GRAPH_DrawLine_loop dx 0 sx sy x2 y color fuel x y e =
        some ((List.range (r + 1)).map
          (fun (k : Nat) => DriverCall.drawPixel (x + sx * (k : Int)) y color)) := by
  intro r
  induction r with
  | zero =>
    intro fuel x hf hx
    obtain ⟨f, rfl⟩ : ∃ f, fuel = f + 1 := ⟨fuel - 1, by omega⟩
    have hx' : x = x2 := by simp [hx]
    simp [GRAPH_DrawLine_loop, hx', List.range_succ]
  | succ r ih =>
    intro fuel x hf hx
    obtain ⟨f, rfl⟩ : ∃ f, fuel = f + 1 := ⟨fuel - 1, by omega⟩
    have hne : ¬ (x = x2 ∧ y = y) := by
      rintro ⟨hxx, _⟩
      rw [hxx] at hx
      have hr : (0 : Int) ≤ r := Int.natCast_nonneg r
      push_cast at hx
      rcases hsx with h | h <;> rw [h] at hx <;> omega
    have hgt : e > -dx := by omega
    have hnlt : ¬ e < 0 := by omega
    have hrec := ih f (x + sx) (by omega) (by rw [hx]; push_cast; ring)
    rw [GRAPH_DrawLine_loop, if_neg hne]
    simp only [if_pos hgt, if_neg hnlt, sub_zero, hrec, Option.map_some']
    congr 1
    rw [List.range_succ_eq_map (r + 1), List.map_cons, List.map_map]
    simp only [Nat.cast_zero, mul_zero, add_zero, List.cons.injEq, true_and]
    apply List.map_congr_left
    intro k _
    simp only [Function.comp, Nat.succ_eq_add_one, Nat.cast_add, Nat.cast_one]
    congr 1
    ring

/-- C5: a horizontal line `GRAPH_DrawLine(x1, y, x2, y, color)` issues exactly
`|x2-x1| + 1` calls of `drawPixel`, at `(x1, y), (x1+s, y), ..., (x2, y)` in
that order with `s = sign(x2-x1)`; a single point gives one write at `(x, y)`,
and the line from `(0,0)` to `(4,0)` visits `(0,0), ..., (4,0)` in order. -/
theorem C5_drawLine_horizontal (x1 x2 y : Int) (color : Nat) (fuel : Nat)
    (hf : (x2 - x1).natAbs + 1 ≤ fuel) :
    GRAPH_DrawLine fuel x1 y x2 y color =
        some ((List.range ((x2 - x1).natAbs + 1)).map
          (fun (k : Nat) => DriverCall.drawPixel (x1 + Int.sign (x2 - x1) * (k : Int)) y color))
      ∧ x1 + Int.sign (x2 - x1) * ((x2 - x1).natAbs : Int) = x2
      ∧ GRAPH_DrawLine fuel x1 y x1 y color = some [DriverCall.drawPixel x1 y color]
      ∧ GRAPH_DrawLine 5 0 0 4 0 color =
          some [DriverCall.drawPixel 0 0 color, DriverCall.drawPixel 1 0 color,
            DriverCall.drawPixel 2 0 color, DriverCall.drawPixel 3 0 color,
            DriverCall.drawPixel 4 0 color] := by
  obtain ⟨f, rfl⟩ : ∃ f, fuel = f + 1 := ⟨fuel - 1, by omega⟩
  refine ⟨?_, ?_, ?_, ?_⟩
  · rw [GRAPH_DrawLine_eq]
    simp only [sub_self, abs_zero]
    rcases eq_or_ne x1 x2 with heq | hne
    · subst heq
      simp [GRAPH_DrawLine_loop]
    · have hpos : 0 < |x2 - x1| := abs_pos.mpr (by omega)
      have hsign : Int.sign (x2 - x1) = if x1 < x2 then 1 else -1 := by
        split_ifs with h
        · exact Int.sign_eq_one_of_pos (by omega)
        · exact Int.sign_eq_neg_one_of_neg (by omega)
      have hnat : ((x2 - x1).natAbs : Int) = |x2 - x1| := Int.natCast_natAbs _
      have hsx : (if x1 < x2 then (1 : Int) else -1) = 1
          ∨ (if x1 < x2 then (1 : Int) else -1) = -1 := by
        split_ifs <;> simp
      rw [if_pos hpos, hsign]
      refine line_loop_horizontal |x2 - x1| _ _ x2 y _ color hpos ?_ hsx _ _ x1 hf ?_
      · rw [Int.tdiv_eq_ediv (le_of_lt hpos) (by decide)]; omega
      · rw [hnat]
        split_ifs with h
        · rw [abs_of_nonneg (by omega)]; ring
        · rw [abs_of_nonpos (by omega)]; ring
  · rw [Int.natCast_natAbs, Int.sign_mul_abs]; ring
  · simp [GRAPH_DrawLine, GRAPH_DrawLine_loop]
  · rfl

theorem C5_drawLine_horizontal_witness :
    GRAPH_DrawLine 4 7 2 5 2 0x00FF00 =
      some [DriverCall.drawPixel 7 2 0x00FF00, DriverCall.drawPixel 6 2 0x00FF00,
        DriverCall.drawPixel 5 2 0x00FF00] :=
  (C5_drawLine_horizontal 7 5 2 0x00FF00 4 (by decide)).1.trans (by decide)

/-! ## Characters -/

/-- C6 (evaluation at the failing input): with a font whose first character is
32, the character code 31 lies below the font's range, yet `GRAPH_DrawChar`
passes the range test (`-1 >= 95` is false) and issues `setWindow`,
`setGramAddress` and 128 pixel writes. -/
theorem C6_drawChar_below_range :
    GRAPH_DrawChar blankFont8x16 31 0 0 0xFFFFFF 0 =
      DriverCall.setWindow 0 0 8 16 :: DriverCall.setGramAddress 0 0 ::
        List.replicate 128 (DriverCall.drawNextPixel 0) := by
  decide

/-! ## Bar chart -/

/-- C7 (counterexample): the bars of `GRAPH_DrawBarChart([10, 20, 30], 3, 0, 0, 5, color)`
do not start at `x = 0, 15, 30`. -/
theorem C7_barChart_not_15 :
    GRAPH_DrawBarChart_fills (bufferOfList [10, 20, 30]) 3 0 0 5 0xFF0000 ≠
      [{ x := 0, y := 0, width := 5, height := 10, color := 0xFF0000 },
       { x := 15, y := 0, width := 5, height := 20, color := 0xFF0000 },
       { x := 30, y := 0, width := 5, height := 30, color := 0xFF0000 }] := by
  decide

/-- C7 (amended): `GRAPH_DrawBarChart([10, 20, 30], 3, 0, 0, 5, color)` makes exactly
three calls of `GRAPH_DrawRectangle`, each of width 5, with x-origins 0, 10 and
20 (bar width 5 plus gap 5) and heights 10, 20 and 30; its driver calls are
those of the three rectangles in that order. -/
theorem C7_barChart_three_bars (color : Nat) :
    GRAPH_DrawBarChart_fills (bufferOfList [10, 20, 30]) 3 0 0 5 color =
        [{ x := 0, y := 0, width := 5, height := 10, color := color },
         { x := 10, y := 0, width := 5, height := 20, color := color },
         { x := 20, y := 0, width := 5, height := 30, color := color }]
      ∧ GRAPH_DrawBarChart (bufferOfList [10, 20, 30]) 3 0 0 5 color =
          GRAPH_DrawRectangle 0 0 5 10 color ++ GRAPH_DrawRectangle 10 0 5 20 color ++
            GRAPH_DrawRectangle 20 0 5 30 color := by
  have h : GRAPH_DrawBarChart_fills (bufferOfList [10, 20, 30]) 3 0 0 5 color =
      [{ x := 0, y := 0, width := 5, height := 10, color := color },
       { x := 10, y := 0, width := 5, height := 20, color := color },
       { x := 20, y := 0, width := 5, height := 30, color := color }] := rfl
  refine ⟨h, ?_⟩
  rw [GRAPH_DrawBarChart, h]
  simp [List.flatMap]

/-! ## Circles -/

/-- C8 (evaluation at the failing inputs): with radius 0 `GRAPH_DrawFilledCircle`
writes nothing, and with radius 1 it draws the ring of radius 0 only, never the
ring of radius 1. -/
theorem C8_filledCircle_skips_outer_ring :
    GRAPH_DrawFilledCircle 4 0 0 0 0xFFFFFF = some []
      ∧ GRAPH_DrawFilledCircle 4 0 0 1 0xFFFFFF = GRAPH_DrawCircle 4 0 0 0 0xFFFFFF
      ∧ GRAPH_DrawFilledCircle 4 0 0 1 0xFFFFFF =
          some (List.replicate 8 (DriverCall.drawPixel 0 0 0xFFFFFF))
      ∧ (GRAPH_DrawCircle 4 0 0 1 0xFFFFFF).map (List.take 1) =
          some [DriverCall.drawPixel 1 0 0xFFFFFF] := by
  decide

/-- C9 (evaluation at the failing input): `GRAPH_DrawLine` and `GRAPH_DrawCircle`
hand the caller's 24-bit colour `0xFF0000` to `drawPixel` unchanged, although
its 5-6-5 value is `0xF800`. -/
theorem C9_line_circle_raw_colour :
    GRAPH_DrawLine 1 0 0 0 0 0xFF0000 = some [DriverCall.drawPixel 0 0 0xFF0000]
      ∧ GRAPH_DrawCircle 2 0 0 0 0xFF0000 =
          some (List.replicate 8 (DriverCall.drawPixel 0 0 0xFF0000))
      ∧ GRAPH_ConvertRgbTo565 0xFF0000 = 0xF800 := by
  decide

/-! ## Characters: the glyph bitmap -/

theorem range_flatMap_eq {α : Type} (b : Nat) (f : Nat → α) :
    ∀ (a : Nat) (G : Nat → List α),
      (∀ i, i < a → G i = (List.range b).map (fun (j : Nat) => f (i * b + j))) →
      (List.range a).flatMap G = (List.range (a * b)).map f := by
  intro a
  induction a with
  | zero => intro G _; simp
  | succ a ih =>
    intro G h
    have hsplit : (a + 1) * b = a * b + b := by ring
    rw [List.range_succ, List.flatMap_append, ih G (fun i hi => h i (by omega)), hsplit,
      List.range_add, List.map_append, List.map_map]
    congr 1
    simp only [List.flatMap_cons, List.flatMap_nil, List.append_nil]
    rw [h a (by omega)]
    rfl

theorem and_bitmask_ne_zero (byte k : Nat) :
    (byte &&& (0x01 <<< k) ≠ 0) ↔ byte.testBit k = true := by
  rw [Nat.one_shiftLeft, Nat.and_two_pow]
  cases h : byte.testBit k
  · simp
  · simp

theorem GRAPH_DrawChar_glyph (currentFont : GRAPH_FontTypedef) (data : Int → Nat)
    (hdata : currentFont.data = some data) (character x y : Int) (fg bg : Nat)
    (hrow : character - currentFont.firstCharacter < currentFont.numberOfCharacters) :
    GRAPH_DrawChar currentFont character x y fg bg =
      DriverCall.setWindow x y currentFont.columnCount (currentFont.bytesPerColumn * 8) ::
        DriverCall.setGramAddress x y ::
        (List.range (currentFont.columnCount * (currentFont.bytesPerColumn * 8))).map
          (glyphPixel data
            (currentFont.columnCount * currentFont.bytesPerColumn *
              (character - currentFont.firstCharacter))
            (GRAPH_ConvertRgbTo565 fg) (GRAPH_ConvertRgbTo565 bg)) := by
  have hguard : ¬ (character - (currentFont.firstCharacter : Int) ≥
      (currentFont.numberOfCharacters : Int)) := by omega
  unfold GRAPH_DrawChar
  simp only [hdata, if_neg hguard, forLoop, Int.toNat_ofNat, List.cons_append,
    List.nil_append, Int.toNat_natCast]
  congr 2
  apply range_flatMap_eq
  intro i _
  have h8 : (8 : Int).toNat = 8 := rfl
  rw [h8]
  apply range_flatMap_eq 8 (fun m => glyphPixel data _ _ _ (i * (currentFont.bytesPerColumn * 8) + m))
  intro j _
  have hmap : ∀ (l : List Nat) (h : Nat → DriverCall), l.flatMap (fun k => [h k]) = l.map h := by
    intro l h
    induction l with
    | nil => rfl
    | cons a t ih => simp [List.flatMap_cons, ih]
  rw [← hmap]
  apply List.flatMap_congr
  intro k hk
  have hk8 : k < 8 := List.mem_range.mp hk
  have hdiv : (i * (currentFont.bytesPerColumn * 8) + (j * 8 + k)) / 8 =
      i * currentFont.bytesPerColumn + j := by
    have : i * (currentFont.bytesPerColumn * 8) = 8 * (i * currentFont.bytesPerColumn) := by ring
    omega
  have hmod : (i * (currentFont.bytesPerColumn * 8) + (j * 8 + k)) % 8 = k := by
    have : i * (currentFont.bytesPerColumn * 8) = 8 * (i * currentFont.bytesPerColumn) := by ring
    omega
  have hidx : (currentFont.columnCount : Int) * currentFont.bytesPerColumn *
        (character - currentFont.firstCharacter) + (i : Int) * currentFont.bytesPerColumn + j =
      (currentFont.columnCount : Int) * currentFont.bytesPerColumn *
        (character - currentFont.firstCharacter) +
        ((i * currentFont.bytesPerColumn + j : Nat) : Int) := by
    push_cast; ring
  simp only [glyphPixel, hdiv, hmod, Int.toNat_natCast, hidx]
  by_cases hbit : (data ((currentFont.columnCount : Int) * currentFont.bytesPerColumn *
        (character - currentFont.firstCharacter) +
        ((i * currentFont.bytesPerColumn + j : Nat) : Int))).testBit k = true
  · rw [if_pos ((and_bitmask_ne_zero _ _).mpr hbit), if_pos hbit]
  · rw [if_neg (fun h => hbit ((and_bitmask_ne_zero _ _).mp h)), if_neg hbit]

/-- C10: with a font set and glyph index `g = ch - firstCharacter` in
`[0, numberOfCharacters)`, `GRAPH_DrawChar` issues
`setWindow(x, y, columnCount, bytesPerColumn*8)`, `setGramAddress(x, y)` and then
exactly `columnCount * bytesPerColumn * 8` calls of `drawNextPixel` (the width
times the height of the window); the `n`-th of them carries the converted
foreground colour if bit `n mod 8` of font byte `columnCount*bytesPerColumn*g + n div 8`
is set and the converted background colour otherwise. -/
theorem C10_drawChar_glyph (currentFont : GRAPH_FontTypedef) (data : Int → Nat)
    (hdata : currentFont.data = some data) (ch x y : Int) (fg bg : Nat) (g : Nat)
    (hg : ch - currentFont.firstCharacter = g) (hlt : g < currentFont.numberOfCharacters) :
    GRAPH_DrawChar currentFont ch x y fg bg =
        DriverCall.setWindow x y currentFont.columnCount (currentFont.bytesPerColumn * 8) ::
          DriverCall.setGramAddress x y ::
          (List.range (currentFont.columnCount * currentFont.bytesPerColumn * 8)).map
            (fun (n : Nat) => DriverCall.drawNextPixel
              (if (data ((currentFont.columnCount * currentFont.bytesPerColumn * g + n / 8 : Nat)
                    : Int)).testBit (n % 8)
                then GRAPH_ConvertRgbTo565 fg else GRAPH_ConvertRgbTo565 bg))
      ∧ ((List.range (currentFont.columnCount * currentFont.bytesPerColumn * 8)).map
            (fun (n : Nat) => DriverCall.drawNextPixel
              (if (data ((currentFont.columnCount * currentFont.bytesPerColumn * g + n / 8 : Nat)
                    : Int)).testBit (n % 8)
                then GRAPH_ConvertRgbTo565 fg else GRAPH_ConvertRgbTo565 bg))).length =
          currentFont.columnCount * (currentFont.bytesPerColumn * 8) := by
  refine ⟨?_, by simp [Nat.mul_assoc]⟩
  rw [GRAPH_DrawChar_glyph currentFont data hdata ch x y fg bg (by omega), hg,
    Nat.mul_assoc currentFont.columnCount currentFont.bytesPerColumn 8]
  congr 2

theorem C10_drawChar_glyph_witness :
    GRAPH_DrawChar tinyFont 66 3 4 0xFFFFFF 0 =
      [DriverCall.setWindow 3 4 1 8, DriverCall.setGramAddress 3 4,
        DriverCall.drawNextPixel 0xFFFF, DriverCall.drawNextPixel 0,
        DriverCall.drawNextPixel 0xFFFF, DriverCall.drawNextPixel 0,
        DriverCall.drawNextPixel 0, DriverCall.drawNextPixel 0,
        DriverCall.drawNextPixel 0, DriverCall.drawNextPixel 0] :=
  (C10_drawChar_glyph tinyFont (bufferOfList [0x00, 0x05]) rfl 66 3 4 0xFFFFFF 0 1
    (by decide) (by decide)).1.trans (by decide)

/-! ## Strings -/

theorem GRAPH_DrawString_loop_eq (currentFont : GRAPH_FontTypedef) (y : Int) (fg bg : Nat) :
    ∀ (s : List Int) (x : Int),
      GRAPH_DrawString_loop currentFont y fg bg s x =
        (List.range s.length).flatMap (fun (i : Nat) =>
          GRAPH_DrawChar currentFont (s.getD i 0)
            (x + (i : Int) * (currentFont.columnCount : Int)) y fg bg) := by
  intro s
  induction s with
  | nil => intro x; rfl
  | cons c rest ih =>
    intro x
    rw [GRAPH_DrawString_loop, ih, List.length_cons, List.range_succ_eq_map,
      List.flatMap_cons, List.flatMap_map]
    simp only [List.getD_cons_zero, Nat.cast_zero, zero_mul, add_zero]
    congr 1
    apply List.flatMap_congr
    intro i _
    simp only [Function.comp, Nat.succ_eq_add_one, List.getD_cons_succ, Nat.cast_add,
      Nat.cast_one]
    congr 1
    ring

/-- C11: the driver calls of `GRAPH_DrawString(s, x, y, fg, bg)` are the calls of
`GRAPH_DrawChar(s[i], x + i*columnCount, y, fg, bg)` for `i = 0, ..., length(s)-1`,
one after the other; for `"AB"` these are the calls for `'A'` at `x` followed by
the calls for `'B'` at `x + columnCount`, and the empty string issues no call. -/
theorem C11_drawString_concat (currentFont : GRAPH_FontTypedef) (s : List Int) (x y : Int)
    (fg bg : Nat) :
    GRAPH_DrawString currentFont s x y fg bg =
        (List.range s.length).flatMap (fun (i : Nat) =>
          GRAPH_DrawChar currentFont (s.getD i 0)
            (x + (i : Int) * (currentFont.columnCount : Int)) y fg bg)
      ∧ GRAPH_DrawString currentFont (cString "AB") x y fg bg =
          GRAPH_DrawChar currentFont 65 x y fg bg ++
            GRAPH_DrawChar currentFont 66 (x + (currentFont.columnCount : Int)) y fg bg
      ∧ GRAPH_DrawString currentFont (cString "") x y fg bg = [] := by
  refine ⟨GRAPH_DrawString_loop_eq currentFont y fg bg s x, ?_, rfl⟩
  have hAB : cString "AB" = [65, 66] := by decide
  rw [hAB]
  simp [GRAPH_DrawString, GRAPH_DrawString_loop]

/-! ## Circles: radius zero -/

/-- C12: `GRAPH_DrawCircle(cx, cy, 0, color)` terminates after one round of the
loop, in which it issues exactly eight calls of `drawPixel`, all at `(cx, cy)`. -/
theorem C12_drawCircle_radius_zero (fuel : Nat) (cx cy : Int) (color : Nat)
    (hfuel : 2 ≤ fuel) :
    GRAPH_DrawCircle fuel cx cy 0 color =
      some (List.replicate 8 (DriverCall.drawPixel cx cy color)) := by
  obtain ⟨f, rfl⟩ : ∃ f, fuel = f + 2 := ⟨fuel - 2, by omega⟩
  simp [GRAPH_DrawCircle, GRAPH_DrawCircle_loop, List.replicate]

theorem C12_drawCircle_radius_zero_witness :
    GRAPH_DrawCircle 2 5 (-3) 0 0x00FF00 =
      some (List.replicate 8 (DriverCall.drawPixel 5 (-3) 0x00FF00)) :=
  C12_drawCircle_radius_zero 2 5 (-3) 0x00FF00 (by decide)

/-! ## Characters: no font -/

/-- C13: when no font is set (the data pointer of the current font is null),
`GRAPH_DrawChar` issues no driver call, whatever the character, the position
and the colours. -/
theorem C13_drawChar_no_font (currentFont : GRAPH_FontTypedef) (character x y : Int)
    (fg bg : Nat) (hnull : currentFont.data = none) :
    GRAPH_DrawChar currentFont character x y fg bg = [] := by
  simp [GRAPH_DrawChar, hnull]

theorem C13_drawChar_no_font_witness :
    GRAPH_DrawChar unsetFont 65 10 20 0xFFFFFF 0 = [] :=
  C13_drawChar_no_font unsetFont 65 10 20 0xFFFFFF 0 rfl

/-! ## Images -/

theorem flatMap_singleton_eq_map {α β : Type} (l : List α) (h : α → β) :
    l.flatMap (fun k => [h k]) = l.map h := by
  induction l with
  | nil => rfl
  | cons a t ih => simp [List.flatMap_cons, ih]

theorem length_range_flatMap {α : Type} (b : Nat) (G : Nat → List α) :
    ∀ a : Nat, (∀ i, i < a → (G i).length = b) → ((List.range a).flatMap G).length = a * b := by
  intro a
  induction a with
  | zero => intro _; simp
  | succ a ih =>
    intro h
    rw [List.range_succ, List.flatMap_append, List.length_append, ih (fun i hi => h i (by omega))]
    simp only [List.flatMap_cons, List.flatMap_nil, List.append_nil]
    rw [h a (by omega)]
    ring

/-- C15: for an image of `R` rows, `C` columns and at least 3 bytes per pixel,
`GRAPH_DrawImage(x, y)` issues exactly `R*C` calls of `drawPixel` and nothing
else, row by row and left to right within a row; the call for row `i`, column
`j` is at `(x+j, y+i)` and carries `GRAPH_ConvertRgbTo565((r << 16) | (g << 8) | b)`
for the bytes `r, g, b` at offsets `(i*C+j)*bytesPerPixel + 0, 1, 2`. -/
theorem C15_drawImage_calls (displayedImage : GRAPH_ImageTypedef) (x y : Int)
    (hbpp : 3 ≤ displayedImage.bytesPerPixel) :
    GRAPH_DrawImage displayedImage x y =
        (List.range displayedImage.rows).flatMap (fun (i : Nat) =>
          (List.range displayedImage.columns).map (fun (j : Nat) =>
            DriverCall.drawPixel (x + j) (y + i)
              (GRAPH_ConvertRgbTo565
                ((displayedImage.data
                    (((i * displayedImage.columns + j) * displayedImage.bytesPerPixel + 0 : Nat)
                      : Int) <<< 16)
                  ||| (displayedImage.data
                    (((i * displayedImage.columns + j) * displayedImage.bytesPerPixel + 1 : Nat)
                      : Int) <<< 8)
                  ||| displayedImage.data
                    (((i * displayedImage.columns + j) * displayedImage.bytesPerPixel + 2 : Nat)
                      : Int)))))
      ∧ (GRAPH_DrawImage displayedImage x y).length =
          displayedImage.rows * displayedImage.columns := by
  have _ := hbpp
  have hmain : GRAPH_DrawImage displayedImage x y =
      (List.range displayedImage.rows).flatMap (fun (i : Nat) =>
        (List.range displayedImage.columns).map (fun (j : Nat) =>
          DriverCall.drawPixel (x + j) (y + i)
            (GRAPH_ConvertRgbTo565
              ((displayedImage.data
                  (((i * displayedImage.columns + j) * displayedImage.bytesPerPixel + 0 : Nat)
                    : Int) <<< 16)
                ||| (displayedImage.data
                  (((i * displayedImage.columns + j) * displayedImage.bytesPerPixel + 1 : Nat)
                    : Int) <<< 8)
                ||| displayedImage.data
                  (((i * displayedImage.columns + j) * displayedImage.bytesPerPixel + 2 : Nat)
                    : Int))))) := by
    unfold GRAPH_DrawImage forLoop
    simp only [Int.toNat_natCast, flatMap_singleton_eq_map, RGB_TO_UNSIGNED_INT]
    apply List.flatMap_congr
    intro i _
    apply List.map_congr_left
    intro j _
    have h0 : ((i : Int) * displayedImage.columns + j) * displayedImage.bytesPerPixel =
        (((i * displayedImage.columns + j) * displayedImage.bytesPerPixel + 0 : Nat) : Int) := by
      push_cast; ring
    have h1 : ((i : Int) * displayedImage.columns + j) * displayedImage.bytesPerPixel + 1 =
        (((i * displayedImage.columns + j) * displayedImage.bytesPerPixel + 1 : Nat) : Int) := by
      push_cast; ring
    have h2 : ((i : Int) * displayedImage.columns + j) * displayedImage.bytesPerPixel + 2 =
        (((i * displayedImage.columns + j) * displayedImage.bytesPerPixel + 2 : Nat) : Int) := by
      push_cast; ring
    rw [h1, h2, h0, add_comm (j : Int) x, add_comm (i : Int) y]
  refine ⟨hmain, ?_⟩
  rw [hmain]
  apply length_range_flatMap
  intro i _
  simp

/-- An image of one row and two columns with four bytes per pixel. -/
theorem C15_drawImage_calls_witness :
    GRAPH_DrawImage
        { data := bufferOfList [0xFF, 0x00, 0x00, 0x77, 0x00, 0x00, 0xFF, 0x77],
          rows := 1, columns := 2, bytesPerPixel := 4 } 10 20 =
      [DriverCall.drawPixel 10 20 0xF800, DriverCall.drawPixel 11 20 0x001F] :=
  (C15_drawImage_calls
    { data := bufferOfList [0xFF, 0x00, 0x00, 0x77, 0x00, 0x00, 0xFF, 0x77],
      rows := 1, columns := 2, bytesPerPixel := 4 } 10 20 (by decide)).1.trans (by decide)

/-! ## Boxes -/

theorem rowsWritten_zero_width (x y : Int) (H : Nat) (c : Nat) : rowsWritten x y 0 H c = [] := by
  induction H with
  | zero => rfl
  | succ H ih =>
    have hsplit : rowsWritten x y 0 (H + 1) c = rowsWritten x y 0 H c ++ [] := by
      simp [rowsWritten, List.range_succ, List.flatMap_append]
    rw [hsplit, ih]; rfl

/-- The writes a rectangle fill adds to the log of a recording driver. -/
theorem run_rectangle_writes (d : RecordingDriver) (x y : Int) (W H : Nat) (color : Nat) :
    (d.run (GRAPH_DrawRectangle x y W H color)).writes =
      d.writes ++ rowsWritten x y W H (GRAPH_ConvertRgbTo565 color) := by
  rw [GRAPH_DrawRectangle_eq, RecordingDriver.run_cons, RecordingDriver.run_cons]
  rcases Nat.eq_zero_or_pos W with hW | hW
  · subst hW
    rw [rowsWritten_zero_width]
    simp [RecordingDriver.run, RecordingDriver.step]
  · obtain ⟨h1, _⟩ := run_rows x W (GRAPH_ConvertRgbTo565 color) hW H y
      ((d.step (DriverCall.setWindow x y W H)).step (DriverCall.setGramAddress x y))
      rfl rfl rfl rfl
    rw [h1]
    simp [RecordingDriver.step]

theorem writesAt_run_rectangle (d : RecordingDriver) (x y w h : Int) (color : Nat)
    (hw : 0 ≤ w) (hh : 0 ≤ h) (p : Int × Int) :
    writesAt (d.run (GRAPH_DrawRectangle x y w h color)).writes p =
      writesAt d.writes p ++
        (if x ≤ p.1 ∧ p.1 < x + w ∧ y ≤ p.2 ∧ p.2 < y + h then
          [(p, GRAPH_ConvertRgbTo565 color)]
        else []) := by
  obtain ⟨W, rfl⟩ := Int.eq_ofNat_of_zero_le hw
  obtain ⟨H, rfl⟩ := Int.eq_ofNat_of_zero_le hh
  rw [run_rectangle_writes, writesAt_append, writesAt_rows]

/-- C16: on a recording driver with an empty log that follows the cursor rule,
`GRAPH_DrawBox(x, y, width, height, lineWidth, color)` with `lineWidth >= 1`,
`width >= 2*lineWidth` and `height >= 2*lineWidth` performs the four rectangle
fills left, top, right, bottom in that order, and the pixels written are exactly
the pixels of `[x, x+width) x [y, y+height)` that lie fewer than `lineWidth`
pixels from one of the four edges, each of them written exactly once. -/
theorem C16_drawBox_border (d : RecordingDriver) (x y width height lineWidth : Int)
    (color : Nat) (hlw : 1 ≤ lineWidth) (hw : 2 * lineWidth ≤ width)
    (hh : 2 * lineWidth ≤ height) (hd : d.writes = []) (p : Int × Int) :
    GRAPH_DrawBox x y width height lineWidth color =
        GRAPH_DrawRectangle x y lineWidth height color ++
        GRAPH_DrawRectangle (x + lineWidth) y (width - 2 * lineWidth) lineWidth color ++
        GRAPH_DrawRectangle (x + width - lineWidth) y lineWidth height color ++
        GRAPH_DrawRectangle (x + lineWidth) (y + height - lineWidth) (width - 2 * lineWidth)
          lineWidth color
      ∧ writesAt (d.run (GRAPH_DrawBox x y width height lineWidth color)).writes p =
          if OnBorder x y width height lineWidth p then [(p, GRAPH_ConvertRgbTo565 color)]
          else [] := by
  refine ⟨rfl, ?_⟩
  unfold GRAPH_DrawBox
  rw [RecordingDriver.run_append, RecordingDriver.run_append, RecordingDriver.run_append,
    writesAt_run_rectangle _ _ _ _ _ _ (by omega) (by omega),
    writesAt_run_rectangle _ _ _ _ _ _ (by omega) (by omega),
    writesAt_run_rectangle _ _ _ _ _ _ (by omega) (by omega),
    writesAt_run_rectangle _ _ _ _ _ _ (by omega) (by omega), hd]
  have hnil : writesAt [] p = [] := rfl
  rw [hnil]
  unfold OnBorder
  obtain ⟨px, py⟩ := p
  simp only
  split_ifs <;> first | rfl | (exfalso; omega)

theorem C16_drawBox_border_witness :
    writesAt ((RecordingDriver.mk 0 0 0 0 0 0 []).run (GRAPH_DrawBox 10 20 6 5 2 0x0000FF)).writes
        (15, 22) = [((15, 22), 0x001F)] :=
  ((C16_drawBox_border (RecordingDriver.mk 0 0 0 0 0 0 []) 10 20 6 5 2 0x0000FF
    (by decide) (by decide) (by decide) rfl (15, 22)).2).trans (by decide)

/-! ## Line graph -/

theorem GRAPH_DrawLine_total (x1 y1 x2 y2 : Int) (color : Nat) :
    ∃ (calls : List DriverCall) (N : Nat), ∀ fuel, N ≤ fuel →
      GRAPH_DrawLine fuel x1 y1 x2 y2 color = some calls := by
  obtain ⟨pts, hrun, _⟩ := GRAPH_DrawLine_pixels x1 y1 x2 y2 color
  exact ⟨pixelCalls color pts, pts.length, hrun⟩

theorem GRAPH_DrawGraph_axes_total (x y : Int) (fg : Nat) :
    ∃ (axes : List DriverCall) (N : Nat), ∀ fuel, N ≤ fuel →
      GRAPH_DrawGraph_axes fuel x y fg = some axes := by
  obtain ⟨l1, n1, h1⟩ := GRAPH_DrawLine_total (x - 2) (y - 2) (x - 2) 230 fg
  obtain ⟨l2, n2, h2⟩ := GRAPH_DrawLine_total (x - 2) 230 (x - 12) 220 fg
  obtain ⟨l3, n3, h3⟩ := GRAPH_DrawLine_total (x - 2) 230 (x + 8) 220 fg
  obtain ⟨l4, n4, h4⟩ := GRAPH_DrawLine_total (x - 2) (y - 2) 310 (y - 2) fg
  obtain ⟨l5, n5, h5⟩ := GRAPH_DrawLine_total 310 (y - 2) 300 (y - 12) fg
  obtain ⟨l6, n6, h6⟩ := GRAPH_DrawLine_total 310 (y - 2) 300 (y + 8) fg
  refine ⟨l1 ++ l2 ++ l3 ++ l4 ++ l5 ++ l6, n1 + n2 + n3 + n4 + n5 + n6, ?_⟩
  intro fuel hf
  unfold GRAPH_DrawGraph_axes
  rw [h1 fuel (by omega), h2 fuel (by omega), h3 fuel (by omega), h4 fuel (by omega),
    h5 fuel (by omega), h6 fuel (by omega)]

theorem GRAPH_DrawGraph_eq (fuel : Nat) (font8x16Info currentFont : GRAPH_FontTypedef)
    (lcdDriver : GRAPH_LcdDriverTypedef) (data : Int → Nat) (len x y : Int) (fg bg : Nat)
    (axes : List DriverCall)
    (haxes : GRAPH_DrawGraph_axes fuel (x + 30) (y + 30) fg = some axes) :
    GRAPH_DrawGraph fuel font8x16Info currentFont lcdDriver data len x y fg bg =
      some (GRAPH_DrawString font8x16Info (cString "Voltage [V]") 5 50 fg bg ++ axes ++
        GRAPH_DrawGraph_plot data len 270 (x + 30) (y + 30) fg, currentFont) := by
  unfold GRAPH_DrawGraph
  simp only [haxes]
  rfl

theorem GRAPH_DrawGraph_plot_eq (data : Int → Nat) (len x y : Int) (fg : Nat) :
    GRAPH_DrawGraph_plot data len 270 x y fg =
      (List.range (min len 270).toNat).flatMap (fun (i : Nat) =>
        [DriverCall.drawPixel (x + i) (y + data i - 1) fg,
         DriverCall.drawPixel (x + i) (y + data i) fg,
         DriverCall.drawPixel (x + i) (y + data i + 1) fg]) := by
  unfold GRAPH_DrawGraph_plot forLoop
  have h : (if len > 270 then (270 : Int) else len) = min len 270 := by
    split_ifs with h
    · exact (min_eq_right (le_of_lt h)).symm
    · exact (min_eq_left (not_lt.mp h)).symm
  simp only [h]

/-- C14: for every sample buffer, length, position, colours and driver, and for
every font that is current before the call (the unset font included),
`GRAPH_DrawGraph` returns, and the font that is current afterwards is the font
that was current before the call. -/
theorem C14_drawGraph_restores_font (font8x16Info currentFont : GRAPH_FontTypedef)
    (lcdDriver : GRAPH_LcdDriverTypedef) (data : Int → Nat) (len x y : Int) (fg bg : Nat) :
    ∃ N : Nat, ∀ fuel, N ≤ fuel →
      ∃ calls : List DriverCall,
        GRAPH_DrawGraph fuel font8x16Info currentFont lcdDriver data len x y fg bg =
          some (calls, currentFont) := by
  obtain ⟨axes, N, haxes⟩ := GRAPH_DrawGraph_axes_total (x + 30) (y + 30) fg
  exact ⟨N, fun fuel hf => ⟨_, GRAPH_DrawGraph_eq fuel font8x16Info currentFont lcdDriver
    data len x y fg bg axes (haxes fuel hf)⟩⟩

theorem C14_drawGraph_restores_font_witness :
    ∃ N : Nat, ∀ fuel, N ≤ fuel →
      ∃ calls : List DriverCall,
        GRAPH_DrawGraph fuel blankFont8x16 unsetFont (GRAPH_LcdDriverTypedef.mk 320 240)
            (bufferOfList [10, 20, 30]) 3 0 0 0xFFFFFF 0 =
          some (calls, unsetFont) :=
  C14_drawGraph_restores_font blankFont8x16 unsetFont (GRAPH_LcdDriverTypedef.mk 320 240)
    (bufferOfList [10, 20, 30]) 3 0 0 0xFFFFFF 0

/-- C17 (counterexample): on a driver of width 240 and with 250 samples,
`GRAPH_DrawGraph` plots all 250 samples (750 pixel writes after the label and the
axes), not `min(250, 240 - 50) = 190` of them. -/
theorem C17_plot_ignores_width :
    ∃ (fuel : Nat) (axes plot : List DriverCall),
      GRAPH_DrawGraph fuel blankFont8x16 unsetFont (GRAPH_LcdDriverTypedef.mk 240 320)
          (fun _ => 0) 250 0 0 0xFFFFFF 0 =
        some (GRAPH_DrawString blankFont8x16 (cString "Voltage [V]") 5 50 0xFFFFFF 0 ++ axes ++
          plot, unsetFont)
      ∧ GRAPH_DrawGraph_axes fuel 30 30 0xFFFFFF = some axes
      ∧ plot = (List.range 250).flatMap (fun (i : Nat) =>
          [DriverCall.drawPixel (30 + i) 29 0xFFFFFF, DriverCall.drawPixel (30 + i) 30 0xFFFFFF,
           DriverCall.drawPixel (30 + i) 31 0xFFFFFF])
      ∧ plot.length = 3 * 250
      ∧ plot.length ≠
          3 * (min (250 : Int) ((GRAPH_LcdDriverTypedef.mk 240 320).width - 50)).toNat := by
  obtain ⟨axes, N, haxes⟩ := GRAPH_DrawGraph_axes_total 30 30 0xFFFFFF
  have hlen : ((List.range 250).flatMap (fun (i : Nat) =>
      [DriverCall.drawPixel (30 + i) 29 0xFFFFFF, DriverCall.drawPixel (30 + i) 30 0xFFFFFF,
       DriverCall.drawPixel (30 + i) 31 0xFFFFFF])).length = 3 * 250 := by
    rw [Nat.mul_comm]
    exact length_range_flatMap 3 _ 250 (fun i _ => rfl)
  refine ⟨N, axes, _, ?_, haxes N (le_refl _), rfl, hlen, ?_⟩
  · rw [GRAPH_DrawGraph_eq N blankFont8x16 unsetFont _ (fun _ => 0) 250 0 0 0xFFFFFF 0 axes
      (haxes N (le_refl _)), GRAPH_DrawGraph_plot_eq]
    rfl
  · rw [hlen]; decide

/-- C17 (amended): for every bound driver, whatever its width, and every sample
count `len`, `GRAPH_DrawGraph` issues the calls of the label, then the calls of
the axes, then the plot of exactly `min(len, 270)` samples (none when that is
`<= 0`; 270 is the fixed `320 - 30 - 20`), with exactly three calls of
`drawPixel` per plotted sample. -/
theorem C17_drawGraph_plot_count (font8x16Info currentFont : GRAPH_FontTypedef)
    (lcdDriver : GRAPH_LcdDriverTypedef) (data : Int → Nat) (len x y : Int) (fg bg : Nat) :
    ∃ (axes : List DriverCall) (N : Nat),
      (∀ fuel, N ≤ fuel →
        GRAPH_DrawGraph_axes fuel (x + 30) (y + 30) fg = some axes
        ∧ GRAPH_DrawGraph fuel font8x16Info currentFont lcdDriver data len x y fg bg =
          some (GRAPH_DrawString font8x16Info (cString "Voltage [V]") 5 50 fg bg ++ axes ++
            (List.range (min len 270).toNat).flatMap (fun (i : Nat) =>
              [DriverCall.drawPixel (x + 30 + i) (y + 30 + data i - 1) fg,
               DriverCall.drawPixel (x + 30 + i) (y + 30 + data i) fg,
               DriverCall.drawPixel (x + 30 + i) (y + 30 + data i + 1) fg]), currentFont))
      ∧ ((List.range (min len 270).toNat).flatMap (fun (i : Nat) =>
              [DriverCall.drawPixel (x + 30 + i) (y + 30 + data i - 1) fg,
               DriverCall.drawPixel (x + 30 + i) (y + 30 + data i) fg,
               DriverCall.drawPixel (x + 30 + i) (y + 30 + data i + 1) fg])).length =
          3 * (min len 270).toNat := by
  obtain ⟨axes, N, haxes⟩ := GRAPH_DrawGraph_axes_total (x + 30) (y + 30) fg
  refine ⟨axes, N, fun fuel hf => ⟨haxes fuel hf, ?_⟩, ?_⟩
  · rw [GRAPH_DrawGraph_eq fuel font8x16Info currentFont lcdDriver data len x y fg bg axes
      (haxes fuel hf), GRAPH_DrawGraph_plot_eq]
  · rw [Nat.mul_comm]
    exact length_range_flatMap 3 _ _ (fun i _ => rfl)

/-! ## Lines: distance from the ideal segment -/

theorem lineInvariant_deviation (dx dy sx sy x1 y1 x2 y2 e0 lo hi k : Int)
    (hsx : sx = 1 ∨ sx = -1) (hsy : sy = 1 ∨ sy = -1)
    (hx1 : x1 = x2 - sx * dx) (hy1 : y1 = y2 - sy * dy)
    (hlo : -k ≤ lo - e0) (hhi : hi - 1 - e0 ≤ k) (p : Int × Int)
    (h : LineInvariant dx dy sx sy x2 y2 e0 lo hi dx dy p) :
    2 * abs (dx * |p.2 - y1| - dy * |p.1 - x1|) ≤ 2 * k := by
  obtain ⟨r, q, hr0, hr1, hq0, hq1, hp, hE0, hE1⟩ := h
  have hp1 : p.1 = x2 - sx * r := by rw [hp]
  have hp2 : p.2 = y2 - sy * q := by rw [hp]
  have hax : |p.1 - x1| = dx - r := by
    rw [hp1, hx1]
    rcases hsx with hs | hs <;> rw [hs]
    · rw [abs_of_nonneg (by omega)]; omega
    · rw [abs_of_nonpos (by omega)]; omega
  have hay : |p.2 - y1| = dy - q := by
    rw [hp2, hy1]
    rcases hsy with hs | hs <;> rw [hs]
    · rw [abs_of_nonneg (by omega)]; omega
    · rw [abs_of_nonpos (by omega)]; omega
  have hring : dx * (dy - q) - dy * (dx - r) = (e0 + r * dy - q * dx) - e0 := by ring
  rw [hax, hay, hring]
  have habs : |(e0 + r * dy - q * dx) - e0| ≤ k := abs_le.mpr ⟨by omega, by omega⟩
  omega

theorem GRAPH_DrawLine_pixels_deviation (x1 y1 x2 y2 : Int) (color : Nat) :
    ∃ pts : List (Int × Int),
      (∀ fuel, pts.length ≤ fuel →
        GRAPH_DrawLine fuel x1 y1 x2 y2 color = some (pixelCalls color pts))
      ∧ ∀ p ∈ pts,
          2 * abs (|x2 - x1| * |p.2 - y1| - |y2 - y1| * |p.1 - x1|) ≤ max |x2 - x1| |y2 - y1| := by
  have hdx : 0 ≤ |x2 - x1| := abs_nonneg _
  have hdy : 0 ≤ |y2 - y1| := abs_nonneg _
  have hsx : (if x1 < x2 then (1 : Int) else -1) = 1 ∨ (if x1 < x2 then (1 : Int) else -1) = -1 := by
    split_ifs <;> simp
  have hsy : (if y1 < y2 then (1 : Int) else -1) = 1 ∨ (if y1 < y2 then (1 : Int) else -1) = -1 := by
    split_ifs <;> simp
  have hx1 : x1 = x2 - (if x1 < x2 then (1 : Int) else -1) * |x2 - x1| := by
    split_ifs with h
    · rw [abs_of_nonneg (by omega)]; ring
    · rw [abs_of_nonpos (by omega)]; ring
  have hy1 : y1 = y2 - (if y1 < y2 then (1 : Int) else -1) * |y2 - y1| := by
    split_ifs with h
    · rw [abs_of_nonneg (by omega)]; ring
    · rw [abs_of_nonpos (by omega)]; ring
  by_cases hmaj : |x2 - x1| > |y2 - y1|
  · have hnat : ((|x2 - x1|).toNat : Int) = |x2 - x1| := Int.toNat_of_nonneg hdx
    have he : Int.tdiv |x2 - x1| 2 = |x2 - x1| / 2 :=
      Int.tdiv_eq_ediv hdx (by decide)
    have hmax : max |x2 - x1| |y2 - y1| = |x2 - x1| := max_eq_left (le_of_lt hmaj)
    obtain ⟨pts, hrun, hlen, _, _, _, _, hinv⟩ :=
      line_loop_xmajor |x2 - x1| |y2 - y1| (if x1 < x2 then 1 else -1)
        (if y1 < y2 then 1 else -1) x2 y2 (|x2 - x1| / 2) color hmaj hdy hsx hsy
        (by omega) (by omega) (|x2 - x1|).toNat ((|x2 - x1|).toNat + 1) x1 y1 (|x2 - x1| / 2)
        |y2 - y1| (le_refl _) (by rw [hnat]; exact hx1) hy1 (by omega) (by omega)
        (by rw [hnat]; ring)
    refine ⟨pts, ?_, ?_⟩
    · intro fuel hf
      rw [GRAPH_DrawLine_eq, if_pos hmaj, he]
      exact GRAPH_DrawLine_loop_mono _ _ _ _ _ _ _ _ _ _ _ _ hrun fuel (by omega)
    · intro p hp
      have hI := hinv p hp
      rw [hnat] at hI
      have := lineInvariant_deviation |x2 - x1| |y2 - y1| _ _ x1 y1 x2 y2 (|x2 - x1| / 2) 0
        |x2 - x1| (|x2 - x1| / 2) hsx hsy hx1 hy1 (by omega) (by omega) p hI
      rw [hmax]
      omega
  · have hle : |x2 - x1| ≤ |y2 - y1| := not_lt.mp hmaj
    have hmax : max |x2 - x1| |y2 - y1| = |y2 - y1| := max_eq_right hle
    rcases eq_or_lt_of_le hdy with hzero | hpos
    · have hdx0 : |x2 - x1| = 0 := by omega
      have hxe : x1 = x2 := by
        have := abs_eq_zero.mp hdx0; omega
      have hye : y1 = y2 := by
        have := abs_eq_zero.mp hzero.symm; omega
      refine ⟨[(x1, y1)], ?_, ?_⟩
      · intro fuel hf
        obtain ⟨f, rfl⟩ : ∃ f, fuel = f + 1 := ⟨fuel - 1, by simp at hf; omega⟩
        simp [GRAPH_DrawLine, GRAPH_DrawLine_loop, hxe, hye, pixelCalls]
      · intro p hp
        simp only [List.mem_singleton] at hp
        rw [hp, hdx0, ← hzero]
        simp
    · have hnat : ((|y2 - y1|).toNat : Int) = |y2 - y1| := Int.toNat_of_nonneg hdy
      have he : Int.tdiv (-|y2 - y1|) 2 = -(|y2 - y1| / 2) := by
        rw [Int.neg_tdiv, Int.tdiv_eq_ediv hdy (by decide)]
      obtain ⟨pts, hrun, hlen, _, _, _, _, hinv⟩ :=
        line_loop_ymajor |x2 - x1| |y2 - y1| (if x1 < x2 then 1 else -1)
          (if y1 < y2 then 1 else -1) x2 y2 (-(|y2 - y1| / 2)) color hle hdx hsx hsy
          (by omega) (by omega) (|y2 - y1|).toNat ((|y2 - y1|).toNat + 1) x1 y1
          (-(|y2 - y1| / 2)) |x2 - x1| (le_refl _) hx1 (by rw [hnat]; exact hy1)
          (by omega) (by omega) (by rw [hnat]; ring)
      refine ⟨pts, ?_, ?_⟩
      · intro fuel hf
        rw [GRAPH_DrawLine_eq, if_neg hmaj, he]
        exact GRAPH_DrawLine_loop_mono _ _ _ _ _ _ _ _ _ _ _ _ hrun fuel (by omega)
      · intro p hp
        have hI := hinv p hp
        rw [hnat] at hI
        have := lineInvariant_deviation |x2 - x1| |y2 - y1| _ _ x1 y1 x2 y2
          (-(|y2 - y1| / 2)) (-|y2 - y1| + 1) 1 (|y2 - y1| / 2) hsx hsy hx1 hy1
          (by omega) (by omega) p hI
        rw [hmax]
        omega

/-- C19: for every pair of integer end points, every pixel `(px, py)` that
`GRAPH_DrawLine(x1, y1, x2, y2, color)` writes satisfies
`2 * | dx*|py-y1| - dy*|px-x1| | <= max(dx, dy)` with `dx = |x2-x1|` and
`dy = |y2-y1|`: it lies within half a pixel of the ideal segment along the
minor axis. -/
theorem C19_drawLine_deviation (x1 y1 x2 y2 : Int) (color : Nat) :
    ∃ pts : List (Int × Int),
      (∀ fuel, pts.length ≤ fuel →
        GRAPH_DrawLine fuel x1 y1 x2 y2 color = some (pixelCalls color pts))
      ∧ ∀ p ∈ pts,
          2 * abs (|x2 - x1| * |p.2 - y1| - |y2 - y1| * |p.1 - x1|) ≤ max |x2 - x1| |y2 - y1| :=
  GRAPH_DrawLine_pixels_deviation x1 y1 x2 y2 color

theorem C19_drawLine_deviation_witness :
    ∃ pts : List (Int × Int),
      (∀ fuel, pts.length ≤ fuel →
        GRAPH_DrawLine fuel 0 0 5 (-3) 7 = some (pixelCalls 7 pts))
      ∧ ∀ p ∈ pts,
          2 * abs (|(5 : Int) - 0| * |p.2 - 0| - |(-3 : Int) - 0| * |p.1 - 0|) ≤
            max |(5 : Int) - 0| |(-3 : Int) - 0| :=
  C19_drawLine_deviation 0 0 5 (-3) 7

/-! ## Circles: distance from the ideal circle -/

theorem GRAPH_DrawCircle_loop_mono (cx cy : Int) (color : Nat) :
    ∀ (fuel : Nat) (X Y e : Int) (l : List DriverCall),
      GRAPH_DrawCircle_loop cx cy color fuel X Y e = some l →
      ∀ fuel', fuel ≤ fuel' → GRAPH_DrawCircle_loop cx cy color fuel' X Y e = some l := by
  intro fuel
  induction fuel with
  | zero => intro X Y e l h; simp [GRAPH_DrawCircle_loop] at h
  | succ f ih =>
    intro X Y e l h fuel' hf
    obtain ⟨f', rfl⟩ : ∃ f', fuel' = f' + 1 := ⟨fuel' - 1, by omega⟩
    rw [GRAPH_DrawCircle_loop] at h ⊢
    by_cases hloop : X ≥ Y
    · rw [if_pos hloop] at h ⊢
      by_cases herr : e < 0
      · simp only [if_pos herr, Option.map_eq_some'] at h ⊢
        obtain ⟨l0, h0, hl⟩ := h
        exact ⟨l0, ih _ _ _ _ h0 f' (by omega), hl⟩
      · simp only [if_neg herr, Option.map_eq_some'] at h ⊢
        obtain ⟨l0, h0, hl⟩ := h
        exact ⟨l0, ih _ _ _ _ h0 f' (by omega), hl⟩
    · rw [if_neg hloop] at h ⊢; exact h

/-- The loop of `GRAPH_DrawCircle` from a state `(X, Y, e)` that satisfies the
invariant `e = X² + Y² - r² + 2Y + 1 - 2X + r` of the error term and its bounds:
it stops within `X - Y + 1` rounds, and every pixel it writes lies within `r` of
the ideal circle. -/
theorem circle_loop_tolerance (cx cy r : Int) (color : Nat) :
    ∀ (n fuel : Nat) (X Y e : Int), n + 1 ≤ fuel → X - Y + 1 ≤ n → 0 ≤ Y → X ≤ r →
      e = X * X + Y * Y - r * r + 2 * Y + 1 - 2 * X + r →
      (Y ≤ X → 2 * Y + 1 - 2 * X ≤ e ∧ e ≤ 2 * r + 2 * Y + 1 - 2 * X) →
      ∃ pts : List (Int × Int),
        GRAPH_DrawCircle_loop cx cy color fuel X Y e = some (pixelCalls color pts)
        ∧ ∀ p ∈ pts, abs ((p.1 - cx) * (p.1 - cx) + (p.2 - cy) * (p.2 - cy) - r * r) ≤ r := by
  intro n
  induction n with
  | zero =>
    intro fuel X Y e hf hn _ _ _ _
    obtain ⟨f, rfl⟩ : ∃ f, fuel = f + 1 := ⟨fuel - 1, by omega⟩
    have hloop : ¬ X ≥ Y := by push_cast at hn; omega
    exact ⟨[], by simp [GRAPH_DrawCircle_loop, hloop, pixelCalls], by simp⟩
  | succ n ih =>
    intro fuel X Y e hf hn hY hX he hb
    obtain ⟨f, rfl⟩ : ∃ f, fuel = f + 1 := ⟨fuel - 1, by omega⟩
    by_cases hloop : X ≥ Y
    · obtain ⟨hb1, hb2⟩ := hb hloop
      have hd : abs (X * X + Y * Y - r * r) ≤ r := by
        have hde : X * X + Y * Y - r * r = e - 2 * Y - 1 + 2 * X - r := by rw [he]; ring
        rw [hde]
        exact abs_le.mpr ⟨by omega, by omega⟩
      have hpix : ∀ p ∈ [(X + cx, Y + cy), (Y + cx, X + cy), (-X + cx, Y + cy),
          (-Y + cx, X + cy), (-X + cx, -Y + cy), (-Y + cx, -X + cy), (X + cx, -Y + cy),
          (Y + cx, -X + cy)],
          abs ((p.1 - cx) * (p.1 - cx) + (p.2 - cy) * (p.2 - cy) - r * r) ≤ r := by
        intro p hp
        simp only [List.mem_cons, List.mem_singleton, List.not_mem_nil, or_false] at hp
        have hval : (p.1 - cx) * (p.1 - cx) + (p.2 - cy) * (p.2 - cy) - r * r =
            X * X + Y * Y - r * r := by
          rcases hp with h | h | h | h | h | h | h | h <;> rw [h] <;> ring
        rw [hval]; exact hd
      push_cast at hn
      by_cases herr : e < 0
      · obtain ⟨pts, hrun, hbound⟩ := ih f X (Y + 1) (e + (2 * (Y + 1) + 1)) (by omega)
          (by omega) (by omega) hX (by rw [he]; ring) (fun _ => ⟨by omega, by omega⟩)
        refine ⟨[(X + cx, Y + cy), (Y + cx, X + cy), (-X + cx, Y + cy),
          (-Y + cx, X + cy), (-X + cx, -Y + cy), (-Y + cx, -X + cy), (X + cx, -Y + cy),
          (Y + cx, -X + cy)] ++ pts, ?_, ?_⟩
        · rw [GRAPH_DrawCircle_loop, if_pos hloop]
          simp only [if_pos herr, hrun, Option.map_some']
          simp [pixelCalls]
        · intro p hp
          rcases List.mem_append.mp hp with h | h
          · exact hpix p h
          · exact hbound p h
      · obtain ⟨pts, hrun, hbound⟩ := ih f (X - 1) (Y + 1)
          (e + 2 * (Y + 1 - (X - 1) + 1)) (by omega) (by omega) (by omega) (by omega)
          (by rw [he]; ring) (fun _ => ⟨by omega, by omega⟩)
        refine ⟨[(X + cx, Y + cy), (Y + cx, X + cy), (-X + cx, Y + cy),
          (-Y + cx, X + cy), (-X + cx, -Y + cy), (-Y + cx, -X + cy), (X + cx, -Y + cy),
          (Y + cx, -X + cy)] ++ pts, ?_, ?_⟩
        · rw [GRAPH_DrawCircle_loop, if_pos hloop]
          simp only [if_neg herr, hrun, Option.map_some']
          simp [pixelCalls]
        · intro p hp
          rcases List.mem_append.mp hp with h | h
          · exact hpix p h
          · exact hbound p h
    · exact ⟨[], by simp [GRAPH_DrawCircle_loop, hloop, pixelCalls], by simp⟩

/-- C20: for every radius `r >= 0`, `GRAPH_DrawCircle(cx, cy, r, color)`
terminates and every pixel it writes, at offset `(a, b)` from the centre,
satisfies `|a*a + b*b - r*r| <= r`; for every negative radius the call writes no
pixel. -/
theorem C20_drawCircle_tolerance (cx cy r : Int) (color : Nat) :
    (0 ≤ r → ∃ pts : List (Int × Int),
        (∀ fuel, r.toNat + 2 ≤ fuel →
          GRAPH_DrawCircle fuel cx cy r color = some (pixelCalls color pts))
        ∧ ∀ p ∈ pts, abs ((p.1 - cx) * (p.1 - cx) + (p.2 - cy) * (p.2 - cy) - r * r) ≤ r)
      ∧ (r < 0 → ∀ fuel, 1 ≤ fuel → GRAPH_DrawCircle fuel cx cy r color = some []) := by
  constructor
  · intro hr
    obtain ⟨pts, hrun, hbound⟩ := circle_loop_tolerance cx cy r color (r.toNat + 1)
      (r.toNat + 2) r 0 (1 - r) (le_refl _) (by push_cast; omega) (le_refl _) (le_refl _)
      (by ring) (fun _ => ⟨by omega, by omega⟩)
    refine ⟨pts, ?_, hbound⟩
    intro fuel hf
    exact GRAPH_DrawCircle_loop_mono cx cy color _ _ _ _ _ hrun fuel hf
  · intro hr fuel hf
    obtain ⟨f, rfl⟩ : ∃ f, fuel = f + 1 := ⟨fuel - 1, by omega⟩
    have hloop : ¬ r ≥ 0 := by omega
    simp [GRAPH_DrawCircle, GRAPH_DrawCircle_loop, hloop]

theorem C20_drawCircle_tolerance_witness :
    (∃ pts : List (Int × Int),
        (∀ fuel, (3 : Int).toNat + 2 ≤ fuel →
          GRAPH_DrawCircle fuel 10 10 3 0xFFFFFF = some (pixelCalls 0xFFFFFF pts))
        ∧ ∀ p ∈ pts, abs ((p.1 - 10) * (p.1 - 10) + (p.2 - 10) * (p.2 - 10) - 3 * 3) ≤ 3)
      ∧ GRAPH_DrawCircle 1 10 10 (-2) 0xFFFFFF = some [] :=
  ⟨(C20_drawCircle_tolerance 10 10 3 0xFFFFFF).1 (by decide),
    (C20_drawCircle_tolerance 10 10 (-2) 0xFFFFFF).2 (by decide) 1 (le_refl _)⟩

/-! ## Filled circles: the gap -/

/-- C21: the concentric-ring fill leaves a gap.  For radius 3 the pixel at
offset `(1, 1)` from the centre lies strictly inside the disc (`1 + 1 < 9`), and
`GRAPH_DrawFilledCircle(cx, cy, 3, color)` terminates without ever writing it,
for every centre and colour. -/
theorem C21_filledCircle_gap :
    ∃ r a b : Int, a * a + b * b < r * r ∧
      ∀ (cx cy : Int) (color : Nat), ∃ calls : List DriverCall,
        (∀ fuel, 4 ≤ fuel → GRAPH_DrawFilledCircle fuel cx cy r color = some calls)
        ∧ ∀ c : Nat, DriverCall.drawPixel (cx + a) (cy + b) c ∉ calls := by
  refine ⟨3, 1, 1, by decide, ?_⟩
  intro cx cy color
  refine ⟨(GRAPH_DrawFilledCircle 4 cx cy 3 color).getD [], ?_, ?_⟩
  · intro fuel hf
    obtain ⟨f, rfl⟩ : ∃ f, fuel = f + 4 := ⟨fuel - 4, by omega⟩
    simp [GRAPH_DrawFilledCircle, GRAPH_DrawCircle, GRAPH_DrawCircle_loop]
  · intro c
    simp [GRAPH_DrawFilledCircle, GRAPH_DrawCircle, GRAPH_DrawCircle_loop]
    omega

/-! ## Bar chart: every length -/

theorem GRAPH_DrawBarChart_loop_eq (data : Int → Nat) (widthOfSingleBar : Int) (color : Nat) :
    ∀ (n : Nat) (i currentPosition : Int),
      GRAPH_DrawBarChart_loop data widthOfSingleBar color n i currentPosition =
        (List.range n).map (fun (k : Nat) =>
          ({ x := currentPosition + (k : Int) * (widthOfSingleBar + 5), y := 0,
             width := widthOfSingleBar, height := data (i + (k : Int)), color := color }
            : RectangleCall)) := by
  intro n
  induction n with
  | zero => intro i p; rfl
  | succ n ih =>
    intro i p
    rw [GRAPH_DrawBarChart_loop, ih, List.range_succ_eq_map, List.map_cons, List.map_map]
    simp only [Nat.cast_zero, zero_mul, add_zero, List.cons.injEq, true_and]
    apply List.map_congr_left
    intro k _
    simp only [Function.comp, Nat.succ_eq_add_one, Nat.cast_add, Nat.cast_one]
    have hpos : p + (widthOfSingleBar + 5) + (k : Int) * (widthOfSingleBar + 5) =
        p + ((k : Int) + 1) * (widthOfSingleBar + 5) := by ring
    have hidx : i + 1 + (k : Int) = i + ((k : Int) + 1) := by ring
    rw [hpos, hidx]

/-- C22: for `len >= 0` and `barWidth >= 0`, `GRAPH_DrawBarChart` makes exactly
`len` calls of `GRAPH_DrawRectangle`, the `i`-th (from 0) being
`GRAPH_DrawRectangle(x + i*(barWidth + 5), 0, barWidth, samples[i], color)`; its
driver calls are those of these rectangles in order and do not depend on the
argument `y`. -/
theorem C22_barChart_fills (data : Int → Nat) (len x y barWidth : Int) (color : Nat)
    (hlen : 0 ≤ len) (hwidth : 0 ≤ barWidth) :
    GRAPH_DrawBarChart_fills data len x y barWidth color =
        (List.range len.toNat).map (fun (i : Nat) =>
          ({ x := x + (i : Int) * (barWidth + 5), y := 0, width := barWidth,
             height := data (i : Int), color := color } : RectangleCall))
      ∧ ((GRAPH_DrawBarChart_fills data len x y barWidth color).length : Int) = len
      ∧ GRAPH_DrawBarChart data len x y barWidth color =
          (List.range len.toNat).flatMap (fun (i : Nat) =>
            GRAPH_DrawRectangle (x + (i : Int) * (barWidth + 5)) 0 barWidth (data (i : Int))
              color)
      ∧ ∀ y' : Int, GRAPH_DrawBarChart data len x y' barWidth color =
          GRAPH_DrawBarChart data len x y barWidth color := by
  have _ := hwidth
  have hfills : ∀ y0 : Int, GRAPH_DrawBarChart_fills data len x y0 barWidth color =
      (List.range len.toNat).map (fun (i : Nat) =>
        ({ x := x + (i : Int) * (barWidth + 5), y := 0, width := barWidth,
           height := data (i : Int), color := color } : RectangleCall)) := by
    intro y0
    unfold GRAPH_DrawBarChart_fills
    rw [GRAPH_DrawBarChart_loop_eq]
    simp only [zero_add]
  refine ⟨hfills y, ?_, ?_, ?_⟩
  · rw [hfills y, List.length_map, List.length_range]
    exact Int.toNat_of_nonneg hlen
  · unfold GRAPH_DrawBarChart
    rw [hfills y, List.flatMap_map]
  · intro y'
    unfold GRAPH_DrawBarChart
    rw [hfills y, hfills y']

theorem C22_barChart_fills_witness :
    GRAPH_DrawBarChart_fills (bufferOfList [7, 9]) 2 100 50 3 0x0000FF =
      [{ x := 100, y := 0, width := 3, height := 7, color := 0x0000FF },
       { x := 108, y := 0, width := 3, height := 9, color := 0x0000FF }] :=
  (C22_barChart_fills (bufferOfList [7, 9]) 2 100 50 3 0x0000FF (by decide) (by decide)).1.trans
    (by decide)

end Graphics

namespace Timers

/-! ## Registering software timers -/

/-- C18 (evaluation at the failing input): after ten calls of
`Timer_addSoftwareTimer` from the empty table ten timers are registered; the
eleventh call passes the test `softTimerCount > MAX_SOFT_TIMERS` (`10 > 10` is
false), returns the new id 11 instead of the error code, raises the count to 11
and writes the record at index `ID_TO_ARRAY_INDEX(11) = 10`, one past the last
element of the array.  Only the twelfth call is refused. -/
theorem C18_eleventh_timer_registered (TIMER_TOO_MANY_TIMERS : Int) :
    (addTimers TIMER_TOO_MANY_TIMERS 100 none 10 TimerState.empty).softTimerCount = 10
      ∧ (Timer_addSoftwareTimer TIMER_TOO_MANY_TIMERS
          (addTimers TIMER_TOO_MANY_TIMERS 100 none 10 TimerState.empty) 100 none).1 = 11
      ∧ (Timer_addSoftwareTimer TIMER_TOO_MANY_TIMERS
          (addTimers TIMER_TOO_MANY_TIMERS 100 none 10 TimerState.empty) 100 none).2.softTimerCount
          = 11
      ∧ ID_TO_ARRAY_INDEX 11 = MAX_SOFT_TIMERS
      ∧ ((addTimers TIMER_TOO_MANY_TIMERS 100 none 10 TimerState.empty).softTimers 10).id = 0
      ∧ ((Timer_addSoftwareTimer TIMER_TOO_MANY_TIMERS
          (addTimers TIMER_TOO_MANY_TIMERS 100 none 10 TimerState.empty) 100 none).2.softTimers
            10) =
          { id := 11, currentCount := 0, overflowValue := 100, isActive := false,
            overflowCb := none }
      ∧ (Timer_addSoftwareTimer TIMER_TOO_MANY_TIMERS
          (addTimers TIMER_TOO_MANY_TIMERS 100 none 11 TimerState.empty) 100 none).1 =
          TIMER_TOO_MANY_TIMERS := by
  refine ⟨rfl, rfl, rfl, rfl, rfl, rfl, rfl⟩

/-! ## The non-blocking delay -/

/-- What `Timer_delayTimer` computes, for 32-bit arguments: the elapsed time is
compared as it is when the counter has not wrapped, and one millisecond short
when it has. -/
theorem Timer_delayTimer_eq (now millis start : Nat) (hnow : now < 2 ^ 32)
    (hstart : start < 2 ^ 32) :
    Timer_delayTimer now millis start =
      if start ≤ now then decide (sub32 now start > millis)
      else decide (sub32 now start - 1 > millis) := by
  unfold Timer_delayTimer
  by_cases h : start ≤ now
  · have h2 : ¬ now < start := by omega
    simp [h, h2]
  · have h2 : now < start := by omega
    have h3 : add32 (sub32 UINT32_MAX start) now = sub32 now start - 1 := by
      unfold add32 sub32 UINT32_MAX
      omega
    simp [h, h2, h3]

/-- C23 (evaluation at the failing input): with `start = 0xFFFFFFFF`, `now = 0`
and `millis = 0` the counter has wrapped and one millisecond has elapsed
(`(0 - 0xFFFFFFFF) mod 2^32 = 1 > 0`), yet `Timer_delayTimer` returns FALSE,
because it computes `UINT32_MAX - start + now = 0`. -/
theorem C23_delayTimer_wrap_off_by_one :
    Timer_delayTimer 0 0 0xFFFFFFFF = false
      ∧ sub32 0 0xFFFFFFFF = 1
      ∧ add32 (sub32 UINT32_MAX 0xFFFFFFFF) 0 = 0
      ∧ Timer_delayTimer 1 0 0xFFFFFFFF = true := by
  decide

/-! ## Updating the software timers -/

theorem TimerState.assign_self (s : TimerState) (i : Int)
    (change : TIMER_SoftTimerTypedef → TIMER_SoftTimerTypedef) :
    (s.assign i change).softTimers i = change (s.softTimers i) := by
  simp [TimerState.assign]

theorem TimerState.assign_other (s : TimerState) (i j : Int)
    (change : TIMER_SoftTimerTypedef → TIMER_SoftTimerTypedef) (h : j ≠ i) :
    (s.assign i change).softTimers j = s.softTimers j := by
  simp [TimerState.assign, h]

theorem Timer_softwareTimersUpdate_body_spec (d : Nat) (s : TimerState) (i : Int) :
    (Timer_softwareTimersUpdate_body d s i).1.softTimerCount = s.softTimerCount
      ∧ (∀ j : Int, (Timer_softwareTimersUpdate_body d s i).1.softTimers j =
          if j = i then timerAfter d (s.softTimers i) else s.softTimers j)
      ∧ (Timer_softwareTimersUpdate_body d s i).2 = callbacksOf d i (s.softTimers i) := by
  unfold Timer_softwareTimersUpdate_body timerAfter callbacksOf
  simp only [TimerState.assign_self]
  by_cases hact : (s.softTimers i).isActive = true
  · by_cases hov : add32 (s.softTimers i).currentCount d ≥ (s.softTimers i).overflowValue
    · rw [if_pos hact, if_pos hov, if_pos hact, if_pos hov, if_pos ⟨hact, hov⟩]
      cases hcb : (s.softTimers i).overflowCb with
      | none =>
        refine ⟨rfl, fun j => ?_, rfl⟩
        by_cases hj : j = i
        · rw [if_pos hj, hj]
          simp only [TimerState.assign_self, hcb]
        · rw [if_neg hj]
          simp only [TimerState.assign_other _ _ _ _ hj]
      | some cb =>
        refine ⟨rfl, fun j => ?_, rfl⟩
        by_cases hj : j = i
        · rw [if_pos hj, hj]
          simp only [TimerState.assign_self, hcb]
        · rw [if_neg hj]
          simp only [TimerState.assign_other _ _ _ _ hj]
    · rw [if_pos hact, if_neg hov, if_pos hact, if_neg hov, if_neg (fun h => hov h.2)]
      refine ⟨rfl, fun j => ?_, rfl⟩
      by_cases hj : j = i
      · rw [if_pos hj, hj]
        simp only [TimerState.assign_self]
      · rw [if_neg hj]
        simp only [TimerState.assign_other _ _ _ _ hj]
  · rw [if_neg hact, if_neg hact, if_neg (fun h => hact h.1)]
    refine ⟨rfl, fun j => ?_, rfl⟩
    by_cases hj : j = i
    · rw [if_pos hj, hj]
    · rw [if_neg hj]

theorem callbacksOf_filter (d : Nat) (i j : Int) (t : TIMER_SoftTimerTypedef) :
    (callbacksOf d i t).filter (fun e => decide (e.1 = j)) =
      if j = i then callbacksOf d i t else [] := by
  unfold callbacksOf
  by_cases hj : j = i
  · subst hj
    rw [if_pos rfl]
    split_ifs
    · cases t.overflowCb <;> simp
    · rfl
  · rw [if_neg hj]
    have hji : ¬ i = j := fun h => hj h.symm
    split_ifs
    · cases t.overflowCb <;> simp [hji]
    · rfl

theorem Timer_softwareTimersUpdate_loop_spec (d : Nat) :
    ∀ (n : Nat) (i0 : Int) (s : TimerState),
      (Timer_softwareTimersUpdate_loop d n i0 s).1.softTimerCount = s.softTimerCount
        ∧ (∀ j : Int, (Timer_softwareTimersUpdate_loop d n i0 s).1.softTimers j =
            if i0 ≤ j ∧ j < i0 + (n : Int) then timerAfter d (s.softTimers j)
            else s.softTimers j)
        ∧ (∀ j : Int,
            (Timer_softwareTimersUpdate_loop d n i0 s).2.filter (fun e => decide (e.1 = j)) =
              if i0 ≤ j ∧ j < i0 + (n : Int) then callbacksOf d j (s.softTimers j) else []) := by
  intro n
  induction n with
  | zero =>
    intro i0 s
    have hno : ∀ j : Int, ¬ (i0 ≤ j ∧ j < i0 + ((0 : Nat) : Int)) := by
      intro j h; have := h.1; have := h.2; simp at *; omega
    refine ⟨rfl, fun j => ?_, fun j => ?_⟩
    · rw [if_neg (hno j)]; rfl
    · rw [if_neg (hno j)]; rfl
  | succ n ih =>
    intro i0 s
    obtain ⟨b1, b2, b3⟩ := Timer_softwareTimersUpdate_body_spec d s i0
    obtain ⟨h1, h2, h3⟩ := ih (i0 + 1) (Timer_softwareTimersUpdate_body d s i0).1
    have hloop : Timer_softwareTimersUpdate_loop d (n + 1) i0 s =
        ((Timer_softwareTimersUpdate_loop d n (i0 + 1)
            (Timer_softwareTimersUpdate_body d s i0).1).1,
          (Timer_softwareTimersUpdate_body d s i0).2 ++
            (Timer_softwareTimersUpdate_loop d n (i0 + 1)
              (Timer_softwareTimersUpdate_body d s i0).1).2) := rfl
    rw [hloop]
    refine ⟨by rw [h1, b1], fun j => ?_, fun j => ?_⟩
    · simp only
      rw [h2 j, b2 j]
      by_cases hj : j = i0
      · subst hj
        have c1 : ¬ (j + 1 ≤ j ∧ j < j + 1 + (n : Int)) := by omega
        have c2 : j ≤ j ∧ j < j + ((n + 1 : Nat) : Int) := by push_cast; omega
        rw [if_neg c1, if_pos rfl, if_pos c2]
      · rw [if_neg hj]
        by_cases hin : i0 + 1 ≤ j ∧ j < i0 + 1 + (n : Int)
        · have c2 : i0 ≤ j ∧ j < i0 + ((n + 1 : Nat) : Int) := by push_cast; omega
          rw [if_pos hin, if_pos c2]
        · have c2 : ¬ (i0 ≤ j ∧ j < i0 + ((n + 1 : Nat) : Int)) := by push_cast; omega
          rw [if_neg hin, if_neg c2]
    · simp only
      rw [List.filter_append, h3 j, b3, callbacksOf_filter, b2 j]
      by_cases hj : j = i0
      · subst hj
        have c1 : ¬ (j + 1 ≤ j ∧ j < j + 1 + (n : Int)) := by omega
        have c2 : j ≤ j ∧ j < j + ((n + 1 : Nat) : Int) := by push_cast; omega
        rw [if_neg c1, if_pos rfl, if_pos c2, List.append_nil]
      · rw [if_neg hj, if_neg hj, List.nil_append]
        by_cases hin : i0 + 1 ≤ j ∧ j < i0 + 1 + (n : Int)
        · have c2 : i0 ≤ j ∧ j < i0 + ((n + 1 : Nat) : Int) := by push_cast; omega
          rw [if_pos hin, if_pos c2]
        · have c2 : ¬ (i0 ≤ j ∧ j < i0 + ((n + 1 : Nat) : Int)) := by push_cast; omega
          rw [if_neg hin, if_neg c2]

/-- What one call of `Timer_softwareTimersUpdate` does to the timer at index `i`
and which callbacks it invokes for it. -/
theorem Timer_softwareTimersUpdate_spec (cur prev : Nat) (s : TimerState) (i : Int) :
    (Timer_softwareTimersUpdate cur prev s).state.softTimerCount = s.softTimerCount
      ∧ (Timer_softwareTimersUpdate cur prev s).state.softTimers i =
          (if 0 ≤ i ∧ i < s.softTimerCount then
            timerAfter (Timer_softwareTimersUpdate_delta cur prev) (s.softTimers i)
          else s.softTimers i)
      ∧ (Timer_softwareTimersUpdate cur prev s).callbacks.filter (fun e => decide (e.1 = i)) =
          (if 0 ≤ i ∧ i < s.softTimerCount then
            callbacksOf (Timer_softwareTimersUpdate_delta cur prev) i (s.softTimers i)
          else []) := by
  obtain ⟨h1, h2, h3⟩ := Timer_softwareTimersUpdate_loop_spec
    (Timer_softwareTimersUpdate_delta cur prev) s.softTimerCount.toNat 0 s
  have hiff : (0 ≤ i ∧ i < 0 + ((s.softTimerCount.toNat : Nat) : Int)) ↔
      (0 ≤ i ∧ i < s.softTimerCount) := by
    constructor <;> intro h <;> constructor <;> omega
  refine ⟨h1, ?_, ?_⟩
  · have := h2 i
    simp only [hiff] at this
    exact this
  · have := h3 i
    simp only [hiff] at this
    exact this

/-- One call of `Timer_softwareTimersUpdate`, described with the value `d` of
`deltaMillis` that the function computes (`now - previous` when the counter has
not wrapped): the timer count and every inactive timer are unchanged and no
callback is invoked for an inactive timer; for a registered active timer
`currentCount` becomes 0 and the overflow callback, if it is not null, is invoked
exactly once when `(currentCount + d) mod 2^32 >= overflowValue`, and otherwise
`currentCount` becomes `(currentCount + d) mod 2^32` and no callback is invoked;
afterwards every registered active timer has `currentCount = 0` or
`currentCount < overflowValue`. -/
theorem Timer_softwareTimersUpdate_per_timer (now previous : Nat) (s : TimerState) (i : Int) :
    (previous ≤ now → now < 2 ^ 32 →
        Timer_softwareTimersUpdate_delta now previous = now - previous)
      ∧ (Timer_softwareTimersUpdate now previous s).state.softTimerCount = s.softTimerCount
      ∧ ((s.softTimers i).isActive = false →
          (Timer_softwareTimersUpdate now previous s).state.softTimers i = s.softTimers i
          ∧ (Timer_softwareTimersUpdate now previous s).callbacks.filter
              (fun e => decide (e.1 = i)) = [])
      ∧ (0 ≤ i → i < s.softTimerCount → (s.softTimers i).isActive = true →
          ((s.softTimers i).currentCount + Timer_softwareTimersUpdate_delta now previous)
              % 2 ^ 32 ≥ (s.softTimers i).overflowValue →
          (Timer_softwareTimersUpdate now previous s).state.softTimers i =
              { s.softTimers i with currentCount := 0 }
          ∧ (Timer_softwareTimersUpdate now previous s).callbacks.filter
              (fun e => decide (e.1 = i)) =
              (match (s.softTimers i).overflowCb with
               | some cb => [(i, cb)]
               | none => []))
      ∧ (0 ≤ i → i < s.softTimerCount → (s.softTimers i).isActive = true →
          ((s.softTimers i).currentCount + Timer_softwareTimersUpdate_delta now previous)
              % 2 ^ 32 < (s.softTimers i).overflowValue →
          (Timer_softwareTimersUpdate now previous s).state.softTimers i =
              { s.softTimers i with
                currentCount := ((s.softTimers i).currentCount +
                  Timer_softwareTimersUpdate_delta now previous) % 2 ^ 32 }
          ∧ (Timer_softwareTimersUpdate now previous s).callbacks.filter
              (fun e => decide (e.1 = i)) = [])
      ∧ (0 ≤ i → i < s.softTimerCount →
          ((Timer_softwareTimersUpdate now previous s).state.softTimers i).isActive = true →
          ((Timer_softwareTimersUpdate now previous s).state.softTimers i).currentCount = 0
          ∨ ((Timer_softwareTimersUpdate now previous s).state.softTimers i).currentCount <
              ((Timer_softwareTimersUpdate now previous s).state.softTimers i).overflowValue) := by
  obtain ⟨h1, h2, h3⟩ := Timer_softwareTimersUpdate_spec now previous s i
  refine ⟨?_, h1, ?_, ?_, ?_, ?_⟩
  · intro hle hlt
    unfold Timer_softwareTimersUpdate_delta sub32
    rw [if_pos hle]
    omega
  · intro hinact
    have hna : ¬ (s.softTimers i).isActive = true := by simp [hinact]
    rw [h2, h3]
    constructor
    · split_ifs
      · unfold timerAfter; rw [if_neg hna]
      · rfl
    · split_ifs
      · unfold callbacksOf; rw [if_neg (fun h => hna h.1)]
      · rfl
  · intro hi0 hi1 hact hov
    have hov' : add32 (s.softTimers i).currentCount
        (Timer_softwareTimersUpdate_delta now previous) ≥ (s.softTimers i).overflowValue := hov
    rw [h2, h3, if_pos ⟨hi0, hi1⟩, if_pos ⟨hi0, hi1⟩]
    constructor
    · unfold timerAfter; rw [if_pos hact, if_pos hov']
    · unfold callbacksOf; rw [if_pos ⟨hact, hov'⟩]
  · intro hi0 hi1 hact hov
    have hnov : ¬ (add32 (s.softTimers i).currentCount
        (Timer_softwareTimersUpdate_delta now previous) ≥ (s.softTimers i).overflowValue) :=
      not_le.mpr hov
    rw [h2, h3, if_pos ⟨hi0, hi1⟩, if_pos ⟨hi0, hi1⟩]
    constructor
    · unfold timerAfter; rw [if_pos hact, if_neg hnov]; rfl
    · unfold callbacksOf; rw [if_neg (fun h => hnov h.2)]
  · intro hi0 hi1
    rw [h2, if_pos ⟨hi0, hi1⟩]
    unfold timerAfter
    by_cases hact : (s.softTimers i).isActive = true
    · rw [if_pos hact]
      by_cases hov : add32 (s.softTimers i).currentCount
          (Timer_softwareTimersUpdate_delta now previous) ≥ (s.softTimers i).overflowValue
      · rw [if_pos hov]; intro _; exact Or.inl rfl
      · rw [if_neg hov]; intro _; exact Or.inr (not_le.mp hov)
    · rw [if_neg hact]; intro h; exact absurd h hact

theorem Timer_softwareTimersUpdate_per_timer_example :
    ((Timer_softwareTimersUpdate 1020 1000 sampleTimers).state.softTimers 0 =
        { id := 1, currentCount := 0, overflowValue := 100, isActive := true,
          overflowCb := some 7 }
      ∧ (Timer_softwareTimersUpdate 1020 1000 sampleTimers).callbacks.filter
          (fun e => decide (e.1 = 0)) = [(0, 7)])
    ∧ ((Timer_softwareTimersUpdate 1020 1000 sampleTimers).state.softTimers 1 =
        { id := 2, currentCount := 5, overflowValue := 100, isActive := false,
          overflowCb := some 8 }
      ∧ (Timer_softwareTimersUpdate 1020 1000 sampleTimers).callbacks.filter
          (fun e => decide (e.1 = 1)) = [])
    ∧ ((Timer_softwareTimersUpdate 1020 1000 sampleTimers).state.softTimers 2 =
        { id := 3, currentCount := 25, overflowValue := 100, isActive := true,
          overflowCb := some 9 }
      ∧ (Timer_softwareTimersUpdate 1020 1000 sampleTimers).callbacks.filter
          (fun e => decide (e.1 = 2)) = []) :=
  ⟨(Timer_softwareTimersUpdate_per_timer 1020 1000 sampleTimers 0).2.2.2.1 (by decide) (by decide)
      (by decide) (by decide),
    (Timer_softwareTimersUpdate_per_timer 1020 1000 sampleTimers 1).2.2.1 (by decide),
    (Timer_softwareTimersUpdate_per_timer 1020 1000 sampleTimers 2).2.2.2.2.1 (by decide) (by decide)
      (by decide) (by decide)⟩

/-- C24 (evaluation at the failing input): the millisecond counter wraps between
two calls, from `previous = 0xFFFFFFFF` to `now = 0`, so the elapsed time is
`d = (0 - 0xFFFFFFFF) mod 2^32 = 1`, and the one registered active timer stands at
99 of 100, so `(99 + 1) mod 2^32 >= 100`.  `Timer_softwareTimersUpdate` computes
`deltaMillis = UINT32_MAX - previous + now = 0`, leaves `currentCount` at 99 and
invokes no callback.  With the same elapsed time and no wrap (`previous = 5`,
`now = 6`) it resets the timer to 0 and invokes the callback once. -/
theorem C24_update_wrap_off_by_one :
    sub32 0 0xFFFFFFFF = 1
      ∧ ((nearOverflowTimers.softTimers 0).currentCount + sub32 0 0xFFFFFFFF) % 2 ^ 32 ≥
          (nearOverflowTimers.softTimers 0).overflowValue
      ∧ Timer_softwareTimersUpdate_delta 0 0xFFFFFFFF = 0
      ∧ (Timer_softwareTimersUpdate 0 0xFFFFFFFF nearOverflowTimers).state.softTimers 0 =
          { id := 1, currentCount := 99, overflowValue := 100, isActive := true,
            overflowCb := some 7 }
      ∧ (Timer_softwareTimersUpdate 0 0xFFFFFFFF nearOverflowTimers).callbacks = []
      ∧ sub32 6 5 = 1
      ∧ Timer_softwareTimersUpdate_delta 6 5 = 1
      ∧ (Timer_softwareTimersUpdate 6 5 nearOverflowTimers).state.softTimers 0 =
          { id := 1, currentCount := 0, overflowValue := 100, isActive := true,
            overflowCb := some 7 }
      ∧ (Timer_softwareTimersUpdate 6 5 nearOverflowTimers).callbacks = [(0, 7)] := by
  decide

end Timers
